import Mathlib

/-!
# orijtech/callback: a shallow embedding of `callback.go`

The package exposes one entity, `Callback`, with two operations:
`Validate` (trim the destination, reject an empty one) and `Do` (validate,
select the transport, encode the payload, build the POST request, dispatch).

Conventions of the embedding.

* A Go `string` is a sequence of Unicode code points (a Lean `String`); its
  bytes are the UTF-8 encoding of that sequence (`stringBytes`). Strings
  inside a structured payload may also hold bytes that are not valid UTF-8
  (`GoString`), because the JSON encoder treats them differently.
* A Go `[]byte` and the contents of a `bytes.Buffer` are `List UInt8`.
* A method with a pointer receiver returns the receiver after the call next to
  its Go results.
* Calls that leave the package (the JSON encoder, `http.NewRequest`, the
  client `Do` hands the request to) and the calls the `http.Client` makes to
  the caller's transport override are recorded in a trace carried by `World`,
  next to the private state of the override and of the network behind the
  default client.
* Floating-point payload values are not represented.
* The unused embedded `sync.RWMutex` of `Callback` is not represented.
-/

namespace callback

/-! ## Strings and bytes -/

/-- The contents of a Go byte slice. -/
abbrev Bytes := List UInt8

/-- UTF-8 encoding of one code point, after Go's `utf8.AppendRune`
(the shifts and masks are written as divisions and remainders). -/
def encodeRune (c : Char) : Bytes :=
  let r := c.toNat
  if r ≤ 0x7F then [UInt8.ofNat r]
  else if r ≤ 0x7FF then [UInt8.ofNat (0xC0 + r / 64), UInt8.ofNat (0x80 + r % 64)]
  else if r ≤ 0xFFFF then
    [UInt8.ofNat (0xE0 + r / 4096), UInt8.ofNat (0x80 + r / 64 % 64), UInt8.ofNat (0x80 + r % 64)]
  else
    [UInt8.ofNat (0xF0 + r / 262144), UInt8.ofNat (0x80 + r / 4096 % 64),
      UInt8.ofNat (0x80 + r / 64 % 64), UInt8.ofNat (0x80 + r % 64)]

/-- UTF-8 encoding of a sequence of code points. -/
def encodeRunes : List Char → Bytes
  | [] => []
  | c :: cs => encodeRune c ++ encodeRunes cs

/-- The bytes of a Go string. -/
def stringBytes (s : String) : Bytes := encodeRunes s.data

/-- Go's `unicode.IsSpace`: the Latin-1 spaces, then the `White_Space` table. -/
def isSpace (r : Char) : Bool :=
  let n := r.toNat
  if n ≤ 0xFF then
    n == 0x09 || n == 0x0A || n == 0x0B || n == 0x0C || n == 0x0D || n == 0x20
      || n == 0x85 || n == 0xA0
  else
    n == 0x1680 || (0x2000 ≤ n && n ≤ 0x200A) || n == 0x2028 || n == 0x2029
      || n == 0x202F || n == 0x205F || n == 0x3000

/-- Go's `strings.TrimLeftFunc` on the code points of a string. -/
def TrimLeftFunc (f : Char → Bool) (s : List Char) : List Char := s.dropWhile f

/-- Go's `strings.TrimRightFunc` on the code points of a string. -/
def TrimRightFunc (f : Char → Bool) (s : List Char) : List Char :=
  (s.reverse.dropWhile f).reverse

/-- Go's `strings.TrimSpace`: leading and trailing white space removed. -/
def TrimSpace (s : String) : String :=
  ⟨TrimRightFunc isSpace (TrimLeftFunc isSpace s.data)⟩

/-! ## Errors -/

deriving instance DecidableEq for Except

/-- Go `error` values: the package's sentinel, errors made elsewhere, a
`tls.RecordHeaderError` (which `net/http` looks for), and the `*url.Error` in
which `net/http` wraps what a client call fails with (its operation, the URL
as text, the error wrapped). -/
inductive Error where
  | errEmptyCallbackURL
  | unsupportedType
  | other (msg : String)
  | tlsRecordHeader (msg : String) (recordHeader : Bytes)
  | urlError (op : String) (url : String) (err : Error)
  deriving DecidableEq, Repr

/-- The text of an error; for the sentinel, `errors.New("empty callback URL")`.
A `*url.Error` prints its operation, its URL in quotes and the wrapped
error. -/
def errorText : Error → String
  | .errEmptyCallbackURL => "empty callback URL"
  | .unsupportedType => "json: unsupported type"
  | .other msg => msg
  | .tlsRecordHeader msg _ => msg
  | .urlError op url err => op ++ " \"" ++ url ++ "\": " ++ errorText err

/-! ## Payload values and the JSON encoder -/

/-- One step of `utf8.DecodeRuneInString` over a Go string, as the JSON
encoder walks it: a code point, or a byte that starts no valid encoding
(the decoder then reports `RuneError` with width 1). -/
inductive Rune where
  | valid (c : Char)
  | invalid (b : UInt8)
  deriving DecidableEq, Repr

/-- A Go string inside a structured payload, as the sequence of steps the
encoder takes over it. A sequence the decoder would not produce (an invalid
byte followed by what completes it to a valid encoding) stands for no Go
string. -/
abbrev GoString := List Rune

/-- A string of code points as a `GoString`. -/
def GoString.ofString (s : String) : GoString := s.data.map Rune.valid

/-- The bytes of a `GoString`. -/
def GoString.bytes : GoString → Bytes
  | [] => []
  | .valid c :: rs => encodeRune c ++ GoString.bytes rs
  | .invalid b :: rs => b :: GoString.bytes rs

/-- Whether a step is a code point. -/
def Rune.isValid : Rune → Bool
  | .valid _ => true
  | .invalid _ => false

/-- Whether a Go string is valid UTF-8. -/
def GoString.isValidUTF8 (s : GoString) : Bool := s.all Rune.isValid

mutual
/-- The Go values `encoding/json` is applied to: `nil` pointers and
interfaces, nil slices, nil maps, booleans, integers, strings, slices, and
maps or structs (entries in the order the encoder writes them: sorted keys
for a map, declaration order for a struct), and values it rejects (channels,
functions, complex numbers). Floating-point numbers are left out. -/
inductive GoValue where
  | null
  | nilSlice
  | nilMap
  | bool (b : Bool)
  | int (i : Int)
  | str (s : GoString)
  | arr (xs : GoValues)
  | obj (fs : GoFields)
  | unsupported
/-- The elements of a slice. -/
inductive GoValues where
  | nil
  | cons (v : GoValue) (vs : GoValues)
/-- The entries of a map or struct. -/
inductive GoFields where
  | nil
  | cons (k : GoString) (v : GoValue) (fs : GoFields)
end

/-- The field `Payload interface{}`, by the cases of the type switch in `Do`. -/
inductive Payload where
  | nil
  | bytes (b : Bytes)
  | string (s : String)
  | other (v : GoValue)

/-- A decimal digit, `byte('0' + d)`. -/
def digitChar (d : Nat) : Char := Char.ofNat (48 + d)

/-- Go's `strconv.FormatUint` in base 10: digits are produced from the least
significant one, each put in front of those already there. -/
def formatUintAux : Nat → Nat → List Char → List Char
  | 0, _, acc => acc
  | fuel + 1, u, acc =>
    if u < 10 then digitChar u :: acc
    else formatUintAux fuel (u / 10) (digitChar (u % 10) :: acc)

/-- Go's `strconv.FormatUint(u, 10)`. -/
def formatUint (u : Nat) : List Char := formatUintAux (u + 1) u []

/-- Go's `strconv.FormatInt(i, 10)`. -/
def formatInt (i : Int) : List Char :=
  if i < 0 then '-' :: formatUint i.natAbs else formatUint i.natAbs

/-- The table `hex` of `encoding/json`. -/
def hexChar (d : Nat) : Char := "0123456789abcdef".data.getD d '0'

/-- One code point of a JSON string literal, after `appendString` of
`encoding/json`: ASCII outside the safe set is escaped (with `escapeHTML`,
also `<`, `>` and `&`), U+2028 and U+2029 are always escaped, everything else
is copied. -/
def escapeRune (escapeHTML : Bool) (c : Char) : List Char :=
  let b := c.toNat
  if b < 0x80 then
    if 0x20 ≤ b && c != '"' && c != '\\' && !(escapeHTML && (c == '<' || c == '>' || c == '&'))
    then [c]
    else if c == '\\' || c == '"' then ['\\', c]
    else if b == 0x08 then ['\\', 'b']
    else if b == 0x0C then ['\\', 'f']
    else if b == 0x0A then ['\\', 'n']
    else if b == 0x0D then ['\\', 'r']
    else if b == 0x09 then ['\\', 't']
    else ['\\', 'u', '0', '0', hexChar (b / 16), hexChar (b % 16)]
  else if b == 0x2028 || b == 0x2029 then ['\\', 'u', '2', '0', '2', hexChar (b % 16)]
  else [c]

/-- One step of `appendString` over a Go string: a code point is written by
`escapeRune`, a byte that is not valid UTF-8 as the six characters `\ufffd`. -/
def escapeStep (escapeHTML : Bool) : Rune → List Char
  | .valid c => escapeRune escapeHTML c
  | .invalid _ => ['\\', 'u', 'f', 'f', 'f', 'd']

/-- The body of a JSON string literal. -/
def escapeRunes (escapeHTML : Bool) : GoString → List Char
  | [] => []
  | r :: rs => escapeStep escapeHTML r ++ escapeRunes escapeHTML rs

/-- The function `appendString` of `encoding/json`: a quoted string literal. -/
def appendString (escapeHTML : Bool) (s : GoString) : List Char :=
  '"' :: escapeRunes escapeHTML s ++ ['"']

mutual
/-- The compact encoding `encodeState.marshal` writes for a value: the whole
value in one pass, no white space between tokens. -/
def marshal (escapeHTML : Bool) : GoValue → Except Error (List Char)
  | .null => .ok "null".data
  | .nilSlice => .ok "null".data
  | .nilMap => .ok "null".data
  | .bool true => .ok "true".data
  | .bool false => .ok "false".data
  | .int i => .ok (formatInt i)
  | .str s => .ok (appendString escapeHTML s)
  | .arr xs =>
    match marshalElems escapeHTML xs with
    | .ok b => .ok ('[' :: b ++ [']'])
    | .error e => .error e
  | .obj fs =>
    match marshalFields escapeHTML fs with
    | .ok b => .ok ('{' :: b ++ ['}'])
    | .error e => .error e
  | .unsupported => .error .unsupportedType
/-- The elements of an array, separated by commas. -/
def marshalElems (escapeHTML : Bool) : GoValues → Except Error (List Char)
  | .nil => .ok []
  | .cons v vs =>
    match marshal escapeHTML v with
    | .error e => .error e
    | .ok a =>
      match vs with
      | .nil => .ok a
      | .cons _ _ =>
        match marshalElems escapeHTML vs with
        | .error e => .error e
        | .ok b => .ok (a ++ ',' :: b)
/-- The entries of an object, `"key":value`, separated by commas. -/
def marshalFields (escapeHTML : Bool) : GoFields → Except Error (List Char)
  | .nil => .ok []
  | .cons k v fs =>
    match marshal escapeHTML v with
    | .error e => .error e
    | .ok a =>
      match fs with
      | .nil => .ok (appendString escapeHTML k ++ ':' :: a)
      | .cons _ _ _ =>
        match marshalFields escapeHTML fs with
        | .error e => .error e
        | .ok b => .ok (appendString escapeHTML k ++ ':' :: a ++ ',' :: b)
end

/-- Go's `json.Marshal`: the one-shot encoding, HTML characters escaped. -/
def jsonMarshal (v : GoValue) : Except Error Bytes :=
  match marshal true v with
  | .ok out => .ok (encodeRunes out)
  | .error e => .error e

/-- A `json.Encoder` writing to a buffer: the only setting `Do` touches. -/
structure Encoder where
  escapeHTML : Bool

/-- Go's `json.NewEncoder`: HTML escaping is on by default. -/
def NewEncoder : Encoder := { escapeHTML := true }

/-- Go's `Encoder.SetEscapeHTML`. -/
def Encoder.SetEscapeHTML (_ : Encoder) (escape : Bool) : Encoder := { escapeHTML := escape }

/-- Go's `Encoder.Encode`: the encoding of the value followed by a newline
character is appended to the buffer; nothing is written on an error. -/
def Encoder.Encode (enc : Encoder) (buf : Bytes) (v : GoValue) : Except Error Bytes :=
  match marshal enc.escapeHTML v with
  | .error e => .error e
  | .ok out => .ok (buf ++ encodeRunes (out ++ ['\n']))

/-! ## Requests, responses and transports -/

/-- A `context.Context`, never nil. -/
structure Context where
  id : Nat
  deriving DecidableEq, Repr

/-- Go's `context.Background()`. -/
def Context.Background : Context := { id := 0 }

/-- Go's `http.Header`: the values set for each key. -/
abbrev Header := List (String × String)

/-- Go's `Header.Set`: the value replaces what the key had. -/
def Header.Set (h : Header) (key value : String) : Header :=
  h.filter (fun kv => kv.1 != key) ++ [(key, value)]

/-- Go's `Header.Get`. -/
def Header.Get (h : Header) (key : String) : String :=
  match h.find? (fun kv => kv.1 == key) with
  | some kv => kv.2
  | none => ""

/-- An outbound `*http.Request`: `Body` is `none` for a nil reader. -/
structure Request where
  Method : String
  URL : String
  Header : Header
  Body : Option Bytes
  ctx : Context
  deriving DecidableEq, Repr

/-- An `*http.Response` as far as the package and its tests look at it; `Body`
is what its body reads. A response whose `Body` is nil is not represented. -/
structure Response where
  StatusCode : Nat
  Status : String
  ContentLength : Nat
  Header : Header
  Body : Bytes
  deriving DecidableEq, Repr

/-- The Go results `(*http.Response, error)`. -/
abbrev Result := Option Response × Option Error

/-- An `http.RoundTripper` supplied by the caller, with private state `σ`. -/
structure RoundTripper (σ : Type) where
  RoundTrip : Request → σ → Result × σ

/-- The transport a pester client sends through. -/
inductive ClientTransport where
  | httpDefault
  | ochttp
  deriving DecidableEq, Repr

/-- The `*pester.Client` settings `exponentialBackoffClient` touches. -/
structure PesterClient where
  KeepLog : Bool
  MaxRetries : Int
  Transport : ClientTransport
  deriving DecidableEq, Repr

/-- The client `pester.New()` returns: three retries, no log kept, the
default transport. -/
def pesterNew : PesterClient :=
  { KeepLog := false, MaxRetries := 3, Transport := ClientTransport.httpDefault }

/-- The function `exponentialBackoffClient` of `callback.go`. -/
def exponentialBackoffClient (retries : Int) : PesterClient :=
  let client := pesterNew
  let retries := if retries < 1 then 5 else retries
  let client := { client with KeepLog := true }
  let client := { client with MaxRetries := retries }
  let client := { client with Transport := ClientTransport.ochttp }
  client

/-- The package variable `defaultClient`. -/
def defaultClient : PesterClient := exponentialBackoffClient 5

/-- A call recorded in the trace: the encoder, `http.NewRequest`, the client
`Do` hands the request to (the `http.Client` over the override, or the
default client), and each `RoundTrip` of the override that the `http.Client`
makes. -/
inductive Event where
  | jsonEncode (v : GoValue)
  | newRequest (url : String)
  | httpClientDo (req : Request)
  | defaultClientDo (req : Request)
  | overrideRoundTrip (req : Request)

/-- What lies outside the package.
* `urlParse`: `url.Parse` as used by `http.NewRequest`, `none` when the URL
  parses.
* `pesterDo`: the default client's `Do` over the network, whose state is `ν`.
* `traced`: whether `ochttp.Transport` instruments the request (it passes a
  request for a health endpoint straight to its base transport).
* `basicAuth`: the value `Basic ...` that `net/http` sets as `Authorization`
  for a URL with user information, `none` for a URL without.
* `traceHeaders`, `traceContext`: the propagation headers `ochttp.Transport`
  sets on the request it passes on, and the context it passes on.
* `urlRedacted`: the text of a request's URL as `net/http` prints it in a
  `*url.Error` (the parsed URL, its password redacted).
* `nextRequest initial previous method includeBody location`: the request by
  which `http.Client` follows a redirect (the `Location` resolved against the
  previous URL, the headers it copies, the `Referer`, the body again when
  `includeBody`), or the error `Do` returns when the `Location` does not
  parse. -/
structure Env (ν : Type) where
  urlParse : String → Option Error
  pesterDo : PesterClient → Request → ν → Result × ν
  basicAuth : String → Option String
  traced : Request → Bool
  traceHeaders : Request → Header
  traceContext : Request → Context
  urlRedacted : String → String
  nextRequest : Request → Request → String → Bool → String → Except Error Request

/-- The state outside a `Callback`: the override's, the network's, and the
calls made so far. -/
structure World (σ ν : Type) where
  rt : σ
  net : ν
  trace : List Event

/-- What a call of a client leaves: the Go results and the world, or a
panic (then there are no results). -/
structure DoerResult (σ ν : Type) where
  res : Result
  world : World σ ν
  panicked : Bool := false

/-- The request `ochttp.Transport` passes on to its base transport: for a
traced request, the headers copied and the propagation headers set, the
context replaced by the traced one; method, URL and body as they were. -/
def instrument {ν : Type} (env : Env ν) (req : Request) : Request :=
  if env.traced req then
    { req with
      Header := (env.traceHeaders req).foldl (fun h kv => h.Set kv.1 kv.2) req.Header
      ctx := env.traceContext req }
  else req

/-- The method `RoundTrip` of `&ochttp.Transport{Base: rt}`: the base
transport is called once with the instrumented request and its results are
returned. For a traced request with no error the response is read for its
status, so a nil response with a nil error is a nil dereference (`none`). -/
def ochttpRoundTrip {σ ν : Type} (env : Env ν) (base : RoundTripper σ) (req : Request)
    (w : World σ ν) : Option Result × World σ ν :=
  let req1 := instrument env req
  let w := { w with trace := w.trace ++ [Event.overrideRoundTrip req1] }
  let (res, rt) := base.RoundTrip req1 w.rt
  let w := { w with rt := rt }
  match res with
  | (none, none) => if env.traced req then (none, w) else (some res, w)
  | _ => (some res, w)

/-- The request `send` of `net/http` passes to the transport: when the URL
holds user information and the request has no `Authorization` header, the
header is set from the URL. -/
def withBasicAuth {ν : Type} (env : Env ν) (req : Request) : Request :=
  match env.basicAuth req.URL with
  | some credentials =>
    if req.Header.Get "Authorization" = "" then
      { req with Header := req.Header.Set "Authorization" credentials }
    else req
  | none => req

/-- The package variable `ErrSchemeMismatch` of `net/http`. -/
def ErrSchemeMismatch : Error :=
  Error.other "http: server gave HTTP response to HTTPS client"

/-- The error `send` of `net/http` returns for an error of the transport: the
error itself, but `ErrSchemeMismatch` for a TLS record header error whose
header reads `HTTP/`. -/
def sendError : Error → Error
  | .tlsRecordHeader msg recordHeader =>
    if recordHeader = stringBytes "HTTP/" then ErrSchemeMismatch
    else .tlsRecordHeader msg recordHeader
  | err => err

/-- The error `send` makes of a nil response with a nil error. -/
def errNilResponse : Error :=
  Error.other
    "http: RoundTripper implementation (*ochttp.Transport) returned a nil *Response with a nil error"

/-- The function `send` of `net/http`: one `RoundTrip` of the client's
transport; a response that comes with an error is ignored, and a nil
response with a nil error is an error. `none` when the transport panicked. -/
def send {σ ν : Type} (env : Env ν) (base : RoundTripper σ) (req : Request)
    (w : World σ ν) : Option (Except Error Response) × World σ ν :=
  match ochttpRoundTrip env base (withBasicAuth env req) w with
  | (none, w) => (none, w)
  | (some (_, some err), w) => (some (.error (sendError err)), w)
  | (some (some resp, none), w) => (some (.ok resp), w)
  | (some (none, none), w) => (some (.error errNilResponse), w)

/-- The function `urlErrorOp` of `net/http`: `Post` for `POST`. -/
def urlErrorOp (method : String) : String :=
  match method.data with
  | [] => "Get"
  | c :: cs => ⟨c :: cs.map Char.toLower⟩

/-- The function `redirectBehavior` of `net/http` for a request whose body
can be sent again (`Do` builds it from a buffer, or without a body): the
method of the next request, whether to redirect, whether to send the body
again. -/
def redirectBehavior (reqMethod : String) (resp : Response) : String × Bool × Bool :=
  if resp.StatusCode = 301 ∨ resp.StatusCode = 302 ∨ resp.StatusCode = 303 then
    (if reqMethod ≠ "GET" ∧ reqMethod ≠ "HEAD" then "GET" else reqMethod, true, false)
  else if resp.StatusCode = 307 ∨ resp.StatusCode = 308 then (reqMethod, true, true)
  else ("", false, false)

/-- Whether `http.Client` goes on to another request after this response: a
redirect status and a `Location` header that is not empty. -/
def followsRedirect (resp : Response) : Bool :=
  (redirectBehavior "POST" resp).2.1 && resp.Header.Get "Location" != ""

/-- The loop of `http.Client.do` with the default redirect policy, from the
request `req` on; `hopsLeft` is the number of redirects the policy still
allows (it stops after ten requests) and `ireq` the first request.
An error of the transport is returned wrapped in a `*url.Error`, without a
response. A response that is no redirect, or has no `Location`, is
returned. Otherwise the next request is built and sent. -/
def clientLoop {σ ν : Type} (env : Env ν) (base : RoundTripper σ) (ireq : Request) :
    Nat → Request → World σ ν → DoerResult σ ν
  | hopsLeft, req, w =>
    match send env base req w with
    | (none, w) => { res := (none, none), world := w, panicked := true }
    | (some (.error err), w) =>
      { res := (none, some (Error.urlError (urlErrorOp ireq.Method) (env.urlRedacted req.URL) err)),
        world := w }
    | (some (.ok resp), w) =>
      match redirectBehavior req.Method resp with
      | (_, false, _) => { res := (some resp, none), world := w }
      | (redirectMethod, true, includeBody) =>
        let loc := resp.Header.Get "Location"
        if loc = "" then { res := (some resp, none), world := w }
        else
          match env.nextRequest ireq req redirectMethod includeBody loc with
          | .error err => { res := (none, some err), world := w }
          | .ok req1 =>
            match hopsLeft with
            | 0 =>
              { res := (some resp,
                  some (Error.urlError (urlErrorOp ireq.Method) loc
                    (Error.other "stopped after 10 redirects"))),
                world := w }
            | hops + 1 => clientLoop env base ireq hops req1 w

/-- The method `Do` of `&http.Client{Transport: &ochttp.Transport{Base: rt}}`:
up to ten requests, the first one `req`. -/
def httpClientDo {σ ν : Type} (env : Env ν) (base : RoundTripper σ) (req : Request)
    (w : World σ ν) : DoerResult σ ν :=
  clientLoop env base req 9 req w

/-- The interface `httpDoer` with its two implementations in `Do`: the
default pester client, or `&http.Client{Transport: &ochttp.Transport{Base: rt}}`. -/
inductive httpDoer (σ : Type) where
  | pester (client : PesterClient)
  | httpClient (base : RoundTripper σ)

/-- The method `Do` of an `httpDoer`. The pester client is the environment's;
the other one is the `http.Client` over the instrumented override. -/
def httpDoer.Do {σ ν : Type} (env : Env ν) (doer : httpDoer σ) (req : Request)
    (w : World σ ν) : DoerResult σ ν :=
  match doer with
  | .pester client =>
    let w := { w with trace := w.trace ++ [Event.defaultClientDo req] }
    let (res, net) := env.pesterDo client req w.net
    { res := res, world := { w with net := net } }
  | .httpClient base =>
    let w := { w with trace := w.trace ++ [Event.httpClientDo req] }
    httpClientDo env base req w

/-- Go's `http.NewRequest`: fails when the URL does not parse, else a request
with the method, the URL, an empty header, the body and the background
context. -/
def NewRequest {ν : Type} (env : Env ν) (method url : String) (body : Option Bytes) :
    Except Error Request :=
  match env.urlParse url with
  | some err => .error err
  | none =>
    .ok { Method := method, URL := url, Header := [], Body := body,
          ctx := Context.Background }

/-- Go's `Request.WithContext`. -/
def Request.WithContext (req : Request) (ctx : Context) : Request := { req with ctx := ctx }

/-! ## The package: `Callback`, `Validate`, `Do` -/

/-- The struct `Callback`: destination, payload, optional transport override. -/
structure Callback (σ : Type) where
  URL : String
  Payload : Payload
  RoundTripper : Option (RoundTripper σ)

/-- The package variable `errEmptyCallbackURL`. -/
def errEmptyCallbackURL : Error := Error.errEmptyCallbackURL

/-- The method `Validate`: the receiver after the call and the error. -/
def Callback.Validate {σ : Type} (cb : Callback σ) : Callback σ × Option Error :=
  let cbURL := TrimSpace cb.URL
  if cbURL = "" then (cb, some errEmptyCallbackURL)
  else ({ cb with URL := cbURL }, none)

/-- What a call of `Do` leaves: the receiver, the Go results, the world;
`panicked` when the call did not return (then there are no results). -/
structure DoResult (σ ν : Type) where
  cb : Callback σ
  resp : Option Response
  err : Option Error
  world : World σ ν
  panicked : Bool := false

/-- The payload switch of `Do`: the reader handed to `http.NewRequest`
(`none` for a nil payload) and `isJSONEncoded`, or the encoder's error;
next to it the calls made. -/
def encodeBody (payload : Payload) : Except Error (Option Bytes × Bool) × List Event :=
  match payload with
  | .nil => (.ok (none, false), [])
  | .bytes typ =>
    let buf : Bytes := []
    (.ok (some (buf ++ typ), false), [])
  | .string typ =>
    let buf : Bytes := []
    (.ok (some (buf ++ stringBytes typ), false), [])
  | .other v =>
    let buf : Bytes := []
    let jsonEncoder := NewEncoder
    let jsonEncoder := jsonEncoder.SetEscapeHTML false
    match jsonEncoder.Encode buf v with
    | .error err => (.error err, [Event.jsonEncode v])
    | .ok buf => (.ok (some buf, true), [Event.jsonEncode v])

/-- The method `Do`. -/
def Callback.Do {σ ν : Type} (env : Env ν) (cb : Callback σ) (ctx : Context) (w : World σ ν) :
    DoResult σ ν :=
  match cb.Validate with
  | (cb, some err) => { cb := cb, resp := none, err := some err, world := w }
  | (cb, none) =>
    let doer : httpDoer σ :=
      match cb.RoundTripper with
      | some rt => .httpClient rt
      | none => .pester defaultClient
    match encodeBody cb.Payload with
    | (.error err, evs) =>
      { cb := cb, resp := none, err := some err, world := { w with trace := w.trace ++ evs } }
    | (.ok (body, isJSONEncoded), evs) =>
      let w := { w with trace := w.trace ++ evs ++ [Event.newRequest cb.URL] }
      match NewRequest env "POST" cb.URL body with
      | .error err => { cb := cb, resp := none, err := some err, world := w }
      | .ok req =>
        let req :=
          if isJSONEncoded then { req with Header := req.Header.Set "Content-Type" "application/json" }
          else req
        let req := req.WithContext ctx
        let r := doer.Do env req w
        { cb := cb, resp := r.res.1, err := r.res.2, world := r.world, panicked := r.panicked }

/-! ## Reading a trace -/

/-- The requests `Do` handed to its client (the `http.Client` over the
override, or the default client), in the order of the calls. -/
def handed : List Event → List Request
  | [] => []
  | .httpClientDo req :: evs => req :: handed evs
  | .defaultClientDo req :: evs => req :: handed evs
  | _ :: evs => handed evs

/-- The requests with which the override's `RoundTrip` was called. -/
def overrideCalls : List Event → List Request
  | [] => []
  | .overrideRoundTrip req :: evs => req :: overrideCalls evs
  | _ :: evs => overrideCalls evs

/-- The requests handed to the default client. -/
def defaultCalls : List Event → List Request
  | [] => []
  | .defaultClientDo req :: evs => req :: defaultCalls evs
  | _ :: evs => defaultCalls evs

/-- The values handed to the JSON encoder. -/
def encoderCalls : List Event → List GoValue
  | [] => []
  | .jsonEncode v :: evs => v :: encoderCalls evs
  | _ :: evs => encoderCalls evs

/-- The URLs handed to `http.NewRequest`. -/
def requestsBuilt : List Event → List String
  | [] => []
  | .newRequest url :: evs => url :: requestsBuilt evs
  | _ :: evs => requestsBuilt evs

/-- An environment in which every URL parses and holds no user information,
the default client answers 200 with an empty body, no tracing header is set, a URL is printed as it was
written, and a redirect goes to the `Location` as written, with the first
request's headers and the previous URL as `Referer`; every request is traced. -/
def quietEnv : Env Unit :=
  { urlParse := fun _ => none
    pesterDo := fun _ _ n =>
      ((some { StatusCode := 200, Status := "200 OK", ContentLength := 0, Header := [],
               Body := [] }, none), n)
    basicAuth := fun _ => none
    traced := fun _ => true
    traceHeaders := fun _ => []
    traceContext := fun req => req.ctx
    urlRedacted := fun url => url
    nextRequest := fun ireq prev method includeBody loc =>
      .ok { Method := method, URL := loc, Header := ireq.Header.Set "Referer" prev.URL,
            Body := if includeBody then ireq.Body else none, ctx := ireq.ctx } }

/-- A world in which nothing has happened yet. -/
def World.start {σ : Type} (s : σ) : World σ Unit := { rt := s, net := (), trace := [] }

/-- The payload of the first test case: `{"a": 12, "b": {"aa": "bb"}}`. -/
def testPayload : GoValue :=
  .obj (.cons (GoString.ofString "a") (.int 12)
    (.cons (GoString.ofString "b")
      (.obj (.cons (GoString.ofString "aa") (.str (GoString.ofString "bb")) .nil)) .nil))

/-- The call by which `Do` dispatches a request: to the `http.Client` over
the override when the `Callback` has one, else to the default client. -/
def dispatchCall {σ : Type} (cb : Callback σ) (req : Request) : Event :=
  match cb.RoundTripper with
  | some _ => .httpClientDo req
  | none => .defaultClientDo req

/-- Whether `Do` treats the payload as structured: present, and neither a
byte slice nor a string. -/
def Payload.isStructured : Payload → Bool
  | .other _ => true
  | _ => false

/-- A transport override that counts its calls and answers 503 with the
request body, no error. -/
def countingRT : RoundTripper Nat :=
  { RoundTrip := fun req n =>
      ((some { StatusCode := 503, Status := "503 Service Unavailable",
               ContentLength := (req.Body.getD []).length, Header := [],
               Body := req.Body.getD [] }, none), n + 1) }

/-- A `Callback` with a URL of white space only, a structured payload and
the counting override. -/
def blankCallback : Callback Nat :=
  { URL := " \t\n", Payload := Payload.other testPayload, RoundTripper := some countingRT }

/-- A `Callback` with the first test case's payload, white space around the
URL, and the counting override. -/
def overrideCallback : Callback Nat :=
  { URL := " https://example.com ", Payload := Payload.other testPayload,
    RoundTripper := some countingRT }

/-- The first test case without an override: destination
`https://example.com`, payload `{"a": 12, "b": {"aa": "bb"}}`. -/
def exampleCallback : Callback Unit :=
  { URL := "https://example.com", Payload := Payload.other testPayload, RoundTripper := none }

/-- A map whose one value is the Go string `"\xff"`, one byte that is not
valid UTF-8. -/
def badStringPayload : GoValue :=
  .obj (.cons (GoString.ofString "k") (.str [Rune.invalid 0xFF]) .nil)

/-- A map whose one value is the Go string `"\xfe"`. -/
def otherBadStringPayload : GoValue :=
  .obj (.cons (GoString.ofString "k") (.str [Rune.invalid 0xFE]) .nil)

/-- A `Callback` for `https://example.com` with a structured payload and no
override. -/
def payloadCallback (v : GoValue) : Callback Unit :=
  { URL := "https://example.com", Payload := Payload.other v, RoundTripper := none }

/-- A transport override that answers its first call with a 302 to
`https://example.com/next` and every later call with 200; its state is the
number of calls. -/
def redirectRT : RoundTripper Nat :=
  { RoundTrip := fun _ calls =>
      if calls = 0 then
        ((some { StatusCode := 302, Status := "302 Found", ContentLength := 0,
                 Header := [("Location", "https://example.com/next")], Body := [] }, none),
          calls + 1)
      else
        ((some { StatusCode := 200, Status := "200 OK", ContentLength := 0, Header := [],
                 Body := [] }, none), calls + 1) }

/-- The second test case with the redirecting override. -/
def redirectCallback : Callback Nat :=
  { URL := "https://orijtech.com", Payload := Payload.string "this is the payload",
    RoundTripper := some redirectRT }

/-! ## Transport overrides that fail, and the test's `customRT` -/

/-- The error a failing transport reports. -/
def transportFailure : Error := Error.other "connection refused"

/-- A transport override fails its first `n` calls and succeeds on the next
one, counted from state `s`: each of the first `n` calls returns an error,
the call after them a response and no error. -/
def FailsFirst {σ : Type} (rt : RoundTripper σ) : Nat → σ → Prop
  | 0, s => ∀ req, (rt.RoundTrip req s).1.2 = none ∧ (rt.RoundTrip req s).1.1 ≠ none
  | n + 1, s => ∀ req, (rt.RoundTrip req s).1.2 ≠ none ∧
      FailsFirst rt n (rt.RoundTrip req s).2

/-- An override that fails its first `n` calls with `transportFailure` and
then answers 200 with the request body; its state is the number of calls. -/
def flakyRT (n : Nat) : RoundTripper Nat :=
  { RoundTrip := fun req calls =>
      if calls < n then ((none, some transportFailure), calls + 1)
      else
        ((some { StatusCode := 200, Status := "200 OK",
                 ContentLength := (req.Body.getD []).length, Header := [],
                 Body := req.Body.getD [] }, none), calls + 1) }

/-- The test's `customRT`: its log, `maxTries`, `curTries`. -/
structure customRT where
  log : String
  maxTries : Int
  curTries : Int
  deriving DecidableEq, Repr

/-- The test's `customRT.RoundTrip`. While `curTries < maxTries` it writes
`Count: <curTries>` to the log, increments `curTries`, repackages the body
and calls itself again; then it writes `Final Write` and answers 200 with
the body read and the log in the header `X-Log`. (A request without a body
does not occur in the test: `ReadAll` would be given a nil reader; here it
reads nothing.) -/
def customRT.RoundTrip (req : Request) (cr : customRT) : Result × customRT :=
  let blob := req.Body.getD []
  if cr.curTries < cr.maxTries then
    let cr1 := { cr with log := cr.log ++ ("Count: " ++ String.mk (formatInt cr.curTries) ++ "\n") }
    let cr2 := { cr1 with curTries := cr1.curTries + 1 }
    customRT.RoundTrip { req with Body := some blob } cr2
  else
    let cr1 := { cr with log := cr.log ++ "Final Write\n" }
    let resp : Response :=
      { Body := blob, StatusCode := 200, Status := "200 OK", ContentLength := blob.length,
        Header := Header.Set [] "X-Log" cr1.log }
    ((some resp, none), cr1)
termination_by (cr.maxTries - cr.curTries).toNat
decreasing_by
  simp_wf
  omega

/-- The test's transport as a `RoundTripper`. -/
def customRT.roundTripper : RoundTripper customRT := { RoundTrip := customRT.RoundTrip }

/-- The test's `new(customRT)` with `maxTries` set. -/
def customRT.new (retries : Int) : customRT := { log := "", maxTries := retries, curTries := 0 }

/-- The log lines `Count: k`, ..., `Count: k+n-1`. -/
def countLog : Nat → Nat → String
  | _, 0 => ""
  | k, n + 1 => "Count: " ++ String.mk (formatInt k) ++ "\n" ++ countLog (k + 1) n

/-- The second test case with an override that fails its first `n` calls. -/
def flakyCallback (n : Nat) : Callback Nat :=
  { URL := "https://orijtech.com", Payload := Payload.string "this is the payload",
    RoundTripper := some (flakyRT n) }

/-- The second test case's `Callback`, its override being the test's transport. -/
def retryCallback : Callback customRT :=
  { URL := "https://orijtech.com", Payload := Payload.string "this is the payload",
    RoundTripper := some customRT.roundTripper }

/-! ## Reading the compact encoding back

Not part of the package. `decodeRune` pins `encodeRune` (the bytes of a
string determine its code points). The reader `parseValue` of the compact
encoding is used for one purpose only: to show that, on payloads whose
strings are valid UTF-8 and which hold no nil slice or map, the encoding is
injective. It is not the decoder of `encoding/json`. -/

/-- Go's `utf8.DecodeRune` on the head of a byte sequence: the code point and
the bytes after it; an invalid or short sequence gives U+FFFD and consumes
one byte. -/
def decodeRune : Bytes → Option (Char × Bytes)
  | [] => none
  | b0 :: rest =>
    let x0 := b0.toNat
    if x0 < 0x80 then some (Char.ofNat x0, rest)
    else
      let invalid : Option (Char × Bytes) := some (Char.ofNat 0xFFFD, rest)
      if 0xC2 ≤ x0 ∧ x0 < 0xE0 then
        match rest with
        | b1 :: r1 =>
          let x1 := b1.toNat
          if 0x80 ≤ x1 ∧ x1 < 0xC0 then some (Char.ofNat ((x0 - 0xC0) * 64 + (x1 - 0x80)), r1)
          else invalid
        | _ => invalid
      else if 0xE0 ≤ x0 ∧ x0 < 0xF0 then
        match rest with
        | b1 :: b2 :: r2 =>
          let x1 := b1.toNat
          let x2 := b2.toNat
          let lo := if x0 = 0xE0 then 0xA0 else 0x80
          let hi := if x0 = 0xED then 0xA0 else 0xC0
          if lo ≤ x1 ∧ x1 < hi ∧ 0x80 ≤ x2 ∧ x2 < 0xC0 then
            some (Char.ofNat ((x0 - 0xE0) * 4096 + (x1 - 0x80) * 64 + (x2 - 0x80)), r2)
          else invalid
        | _ => invalid
      else if 0xF0 ≤ x0 ∧ x0 < 0xF5 then
        match rest with
        | b1 :: b2 :: b3 :: r3 =>
          let x1 := b1.toNat
          let x2 := b2.toNat
          let x3 := b3.toNat
          let lo := if x0 = 0xF0 then 0x90 else 0x80
          let hi := if x0 = 0xF4 then 0x90 else 0xC0
          if lo ≤ x1 ∧ x1 < hi ∧ 0x80 ≤ x2 ∧ x2 < 0xC0 ∧ 0x80 ≤ x3 ∧ x3 < 0xC0 then
            some (Char.ofNat ((x0 - 0xF0) * 262144 + (x1 - 0x80) * 4096 + (x2 - 0x80) * 64
              + (x3 - 0x80)), r3)
          else invalid
        | _ => invalid
      else invalid

/-- The code points of a byte sequence, one `decodeRune` after the other. -/
def decodeRunesAux : Nat → Bytes → List Char
  | 0, _ => []
  | fuel + 1, bs =>
    match decodeRune bs with
    | none => []
    | some (c, rest) => c :: decodeRunesAux fuel rest

/-- The code points of a byte sequence. -/
def decodeRunes (bs : Bytes) : List Char := decodeRunesAux bs.length bs

/-- JSON white space. -/
def isJSONSpace (c : Char) : Bool := c == ' ' || c == '\t' || c == '\r' || c == '\n'

/-- Skip JSON white space. -/
def skipSpace (s : List Char) : List Char := s.dropWhile isJSONSpace

/-- The value of a hexadecimal digit. -/
def hexVal (c : Char) : Option Nat :=
  let n := c.toNat
  if 48 ≤ n ∧ n ≤ 57 then some (n - 48)
  else if 97 ≤ n ∧ n ≤ 102 then some (n - 87)
  else if 65 ≤ n ∧ n ≤ 70 then some (n - 55)
  else none

/-- The code point of a `\uXXXX` escape: U+FFFD for a surrogate half. -/
def escapedRune (a b c d : Nat) : Char :=
  let n := ((a * 16 + b) * 16 + c) * 16 + d
  if 0xD800 ≤ n ∧ n ≤ 0xDFFF then Char.ofNat 0xFFFD else Char.ofNat n

/-- The character a one-letter escape stands for. -/
def unescape (e : Char) : Option Char :=
  if e = '"' then some '"'
  else if e = '\\' then some '\\'
  else if e = '/' then some '/'
  else if e = 'b' then some (Char.ofNat 8)
  else if e = 'f' then some (Char.ofNat 12)
  else if e = 'n' then some '\n'
  else if e = 'r' then some '\r'
  else if e = 't' then some '\t'
  else none

/-- A JSON string literal after its opening quote: the characters up to the
closing quote, escapes resolved, and what follows the closing quote. -/
def parseStringBody : List Char → Option (List Char × List Char)
  | [] => none
  | c :: rest =>
    if c = '"' then some ([], rest)
    else if c = '\\' then
      match rest with
      | [] => none
      | e :: rest1 =>
        if e = 'u' then
          match rest1 with
          | h1 :: h2 :: h3 :: h4 :: rest2 =>
            match hexVal h1, hexVal h2, hexVal h3, hexVal h4, parseStringBody rest2 with
            | some a, some b, some c, some d, some (cs, r) => some (escapedRune a b c d :: cs, r)
            | _, _, _, _, _ => none
          | _ => none
        else
          match unescape e, parseStringBody rest1 with
          | some ch, some (cs, r) => some (ch :: cs, r)
          | _, _ => none
    else if c.toNat < 0x20 then none
    else
      match parseStringBody rest with
      | some (cs, r) => some (c :: cs, r)
      | none => none

/-- The digits at the head of the input, read as a decimal number on top of
`acc`, and what follows them. -/
def parseDigits : List Char → Nat → Nat × List Char
  | [], acc => (acc, [])
  | c :: rest, acc =>
    if 48 ≤ c.toNat ∧ c.toNat ≤ 57 then parseDigits rest (acc * 10 + (c.toNat - 48))
    else (acc, c :: rest)

/-- Whether the input starts with a decimal digit. -/
def startsWithDigit : List Char → Bool
  | [] => false
  | c :: _ => 48 ≤ c.toNat && c.toNat ≤ 57

/-- A JSON integer: an optional minus sign and at least one digit. -/
def parseNumber (s : List Char) : Option (Int × List Char) :=
  match s with
  | [] => none
  | c :: rest =>
    if c = '-' then
      if startsWithDigit rest then some (-((parseDigits rest 0).1 : Int), (parseDigits rest 0).2)
      else none
    else if startsWithDigit (c :: rest) then
      some (((parseDigits (c :: rest) 0).1 : Int), (parseDigits (c :: rest) 0).2)
    else none

mutual
/-- A JSON value at the head of the input (after white space) and what
follows it; `fuel` bounds the nesting and the number of elements. -/
def parseValue : Nat → List Char → Option (GoValue × List Char)
  | 0, _ => none
  | fuel + 1, s =>
    match skipSpace s with
    | [] => none
    | c :: rest =>
      if c = 'n' then
        if rest.take 3 = ['u', 'l', 'l'] then some (.null, rest.drop 3) else none
      else if c = 't' then
        if rest.take 3 = ['r', 'u', 'e'] then some (.bool true, rest.drop 3) else none
      else if c = 'f' then
        if rest.take 4 = ['a', 'l', 's', 'e'] then some (.bool false, rest.drop 4) else none
      else if c = '"' then
        match parseStringBody rest with
        | some (cs, r) => some (.str (cs.map Rune.valid), r)
        | none => none
      else if c = '[' then
        match skipSpace rest with
        | [] => none
        | c1 :: r1 =>
          if c1 = ']' then some (.arr .nil, r1)
          else
            match parseElems fuel (c1 :: r1) with
            | some (xs, r) => some (.arr xs, r)
            | none => none
      else if c = '{' then
        match skipSpace rest with
        | [] => none
        | c1 :: r1 =>
          if c1 = '}' then some (.obj .nil, r1)
          else
            match parseFields fuel (c1 :: r1) with
            | some (fs, r) => some (.obj fs, r)
            | none => none
      else
        match parseNumber (c :: rest) with
        | some (i, r) => some (.int i, r)
        | none => none
/-- The elements of a non-empty array and what follows its closing bracket. -/
def parseElems : Nat → List Char → Option (GoValues × List Char)
  | 0, _ => none
  | fuel + 1, s =>
    match parseValue fuel s with
    | none => none
    | some (v, r) =>
      match skipSpace r with
      | [] => none
      | c :: r1 =>
        if c = ',' then
          match parseElems fuel r1 with
          | some (vs, r2) => some (.cons v vs, r2)
          | none => none
        else if c = ']' then some (.cons v .nil, r1)
        else none
/-- The entries of a non-empty object and what follows its closing brace. -/
def parseFields : Nat → List Char → Option (GoFields × List Char)
  | 0, _ => none
  | fuel + 1, s =>
    match skipSpace s with
    | [] => none
    | q :: r0 =>
      if q = '"' then
        match parseStringBody r0 with
        | none => none
        | some (k, r1) =>
          match skipSpace r1 with
          | [] => none
          | c :: r2 =>
            if c = ':' then
              match parseValue fuel r2 with
              | none => none
              | some (v, r3) =>
                match skipSpace r3 with
                | [] => none
                | c1 :: r4 =>
                  if c1 = ',' then
                    match parseFields fuel r4 with
                    | some (fs, r5) => some (.cons (k.map Rune.valid) v fs, r5)
                    | none => none
                  else if c1 = '}' then some (.cons (k.map Rune.valid) v .nil, r4)
                  else none
            else none
      else none
end

mutual
/-- Whether a payload value is plain: every string in it is valid UTF-8, it
holds no nil slice and no nil map, and nothing the encoder rejects. -/
def GoValue.plain : GoValue → Bool
  | .null => true
  | .bool _ => true
  | .int _ => true
  | .str s => s.isValidUTF8
  | .arr xs => xs.plain
  | .obj fs => fs.plain
  | .nilSlice => false
  | .nilMap => false
  | .unsupported => false
/-- Whether the elements of a slice are plain. -/
def GoValues.plain : GoValues → Bool
  | .nil => true
  | .cons v vs => v.plain && vs.plain
/-- Whether the keys and values of the entries are plain. -/
def GoFields.plain : GoFields → Bool
  | .nil => true
  | .cons k v fs => k.isValidUTF8 && v.plain && fs.plain
end

/-- The test's `stripNewline`: `bytes.TrimRight(b, "\n")`. -/
def stripNewline (b : Bytes) : Bytes := (b.reverse.dropWhile (fun x => x == 0x0A)).reverse

/-! ## Trimming -/

theorem TrimRightFunc_eq_rdropWhile (f : Char → Bool) (s : List Char) :
    TrimRightFunc f s = s.rdropWhile f := rfl

/-- The trimmed string is empty exactly for a string of white space only. -/
theorem TrimSpace_eq_empty_iff (s : String) :
    TrimSpace s = "" ↔ ∀ c ∈ s.data, isSpace c = true := by
  have h1 : TrimSpace s = "" ↔ (s.data.dropWhile isSpace).rdropWhile isSpace = [] := by
    constructor
    · intro h
      have := congrArg String.data h
      simpa [TrimSpace, TrimLeftFunc, TrimRightFunc_eq_rdropWhile] using this
    · intro h
      simp only [TrimSpace, TrimLeftFunc, TrimRightFunc_eq_rdropWhile, h]
  rw [h1, List.rdropWhile_eq_nil_iff]
  constructor
  · intro h
    have h2 : s.data.dropWhile isSpace = [] := by
      by_contra hne
      have hn := List.head_dropWhile_not isSpace s.data hne
      have := h _ (List.head_mem hne)
      simp [this] at hn
    exact List.dropWhile_eq_nil_iff.mp h2
  · intro h x hx
    exact h x ((List.dropWhile_sublist _).subset hx)

/-- Shape of a trimmed list: nothing to trim is left at either end. -/
theorem trim_fixed (f : Char → Bool) (l : List Char) :
    ((l.dropWhile f).rdropWhile f).dropWhile f = (l.dropWhile f).rdropWhile f ∧
    ((l.dropWhile f).rdropWhile f).rdropWhile f = (l.dropWhile f).rdropWhile f := by
  refine ⟨?_, List.rdropWhile_idempotent f _⟩
  rw [List.dropWhile_eq_self_iff]
  intro hl
  have hne : (l.dropWhile f).rdropWhile f ≠ [] := List.ne_nil_of_length_pos hl
  have hpre : (l.dropWhile f).rdropWhile f <+: l.dropWhile f := List.rdropWhile_prefix f _
  have hne2 : l.dropWhile f ≠ [] := by
    intro h0
    rw [h0] at hne
    simp at hne
  have hh := hpre.head hne
  have hn := List.head_dropWhile_not f l hne2
  have hgen : ∀ (x : List Char) (h1 : 0 < x.length) (h2 : x ≠ []),
      x.get ⟨0, h1⟩ = x.head h2 := by
    intro x h1 h2
    cases x with
    | nil => exact absurd rfl h2
    | cons a t => rfl
  have hget := hgen _ hl hne
  rw [hget, hh]
  simp [hn]

/-- Trimming a trimmed string changes nothing. -/
theorem TrimSpace_idempotent (s : String) : TrimSpace (TrimSpace s) = TrimSpace s := by
  have h := trim_fixed isSpace s.data
  show String.mk _ = String.mk _
  congr 1
  simp only [TrimSpace, TrimLeftFunc, TrimRightFunc_eq_rdropWhile]
  rw [h.1, h.2]

/-- The original string is the trimmed one between two runs of white space,
and the trimmed one neither starts nor ends with white space. -/
theorem TrimSpace_padding (s : String) :
    ∃ pre post : List Char,
      s.data = pre ++ (TrimSpace s).data ++ post ∧
      (∀ c ∈ pre, isSpace c = true) ∧ (∀ c ∈ post, isSpace c = true) ∧
      (∀ c ∈ (TrimSpace s).data.head?, isSpace c = false) ∧
      (∀ c ∈ (TrimSpace s).data.getLast?, isSpace c = false) := by
  refine ⟨s.data.takeWhile isSpace, (s.data.dropWhile isSpace).rtakeWhile isSpace, ?_, ?_, ?_, ?_, ?_⟩
  · have h1 := List.takeWhile_append_dropWhile isSpace s.data
    have h2 : (s.data.dropWhile isSpace).rdropWhile isSpace
        ++ (s.data.dropWhile isSpace).rtakeWhile isSpace = s.data.dropWhile isSpace := by
      have := List.takeWhile_append_dropWhile isSpace (s.data.dropWhile isSpace).reverse
      have := congrArg List.reverse this
      rw [List.reverse_append, List.reverse_reverse] at this
      exact this
    simp only [TrimSpace, TrimLeftFunc, TrimRightFunc_eq_rdropWhile, List.append_assoc]
    rw [h2, h1]
  · intro c hc
    exact List.mem_takeWhile_imp hc
  · intro c hc
    exact List.mem_rtakeWhile_imp hc
  · intro c hc
    have hfix := (trim_fixed isSpace s.data).1
    simp only [TrimSpace, TrimLeftFunc, TrimRightFunc_eq_rdropWhile] at hc
    cases ht : (s.data.dropWhile isSpace).rdropWhile isSpace with
    | nil => rw [ht] at hc; simp at hc
    | cons a t =>
      rw [ht] at hc hfix
      simp at hc
      subst hc
      by_contra hsp
      simp at hsp
      have hlen := congrArg List.length hfix
      rw [List.dropWhile_cons_of_pos hsp] at hlen
      have := (List.dropWhile_sublist isSpace (l := t)).length_le
      simp at hlen
      omega
  · intro c hc
    simp only [TrimSpace, TrimLeftFunc, TrimRightFunc_eq_rdropWhile] at hc
    by_cases hne : (s.data.dropWhile isSpace).rdropWhile isSpace = []
    · rw [hne] at hc; simp at hc
    · have := List.rdropWhile_last_not isSpace _ hne
      rw [List.getLast?_eq_getLast _ hne] at hc
      simp at hc
      subst hc
      simpa using this

/-! ## `Validate` -/

/-- C1: `Validate` returns the empty-callback-URL error exactly when the URL
with surrounding white space trimmed is the empty string; in every other case
it returns no error and the receiver's URL is the trimmed original URL (the
other fields are as they were). -/
theorem Validate_error_iff_trimmed_empty {σ : Type} (cb : Callback σ) :
    (cb.Validate.2 = some errEmptyCallbackURL ↔ TrimSpace cb.URL = "") ∧
    (TrimSpace cb.URL ≠ "" →
      cb.Validate = ({ cb with URL := TrimSpace cb.URL }, none)) ∧
    errorText errEmptyCallbackURL = "empty callback URL" := by
  unfold Callback.Validate
  by_cases h : TrimSpace cb.URL = "" <;> simp [h, errorText, errEmptyCallbackURL]

/-- C10: for a URL with some character that is not white space, `Validate`
succeeds and stores the stripped URL (the original without its leading and
trailing runs of white space), and `Validate` on the result succeeds again and
leaves that same URL. -/
theorem Validate_idempotent {σ : Type} (cb : Callback σ)
    (h : ∃ c ∈ cb.URL.data, isSpace c = false) :
    cb.Validate = ({ cb with URL := TrimSpace cb.URL }, none) ∧
    cb.Validate.1.Validate = ({ cb with URL := TrimSpace cb.URL }, none) ∧
    (∃ pre post : List Char,
      cb.URL.data = pre ++ (TrimSpace cb.URL).data ++ post ∧
      (∀ c ∈ pre, isSpace c = true) ∧ (∀ c ∈ post, isSpace c = true) ∧
      (∀ c ∈ (TrimSpace cb.URL).data.head?, isSpace c = false) ∧
      (∀ c ∈ (TrimSpace cb.URL).data.getLast?, isSpace c = false)) := by
  have hne : TrimSpace cb.URL ≠ "" := by
    intro h0
    obtain ⟨c, hc, hs⟩ := h
    have := (TrimSpace_eq_empty_iff cb.URL).mp h0 c hc
    simp [this] at hs
  have h1 : cb.Validate = ({ cb with URL := TrimSpace cb.URL }, none) := by
    unfold Callback.Validate
    simp [hne]
  refine ⟨h1, ?_, TrimSpace_padding cb.URL⟩
  rw [h1]
  unfold Callback.Validate
  simp [TrimSpace_idempotent, hne]

/-- C10 at `"  https://example.com\t\n"`. -/
theorem Validate_idempotent_witness :
    (({ URL := "  https://example.com\t\n", Payload := Payload.nil, RoundTripper := none } :
        Callback Unit).Validate.1.Validate.1.URL = "https://example.com") := by
  have h := Validate_idempotent
    ({ URL := "  https://example.com\t\n", Payload := Payload.nil, RoundTripper := none } :
        Callback Unit) ⟨'h', by decide, by decide⟩
  rw [h.2.1]
  decide

/-! ## Traces -/

theorem handed_append (a b : List Event) : handed (a ++ b) = handed a ++ handed b := by
  induction a with
  | nil => rfl
  | cons e t ih => cases e <;> simp [handed, ih]

theorem overrideCalls_append (a b : List Event) :
    overrideCalls (a ++ b) = overrideCalls a ++ overrideCalls b := by
  induction a with
  | nil => rfl
  | cons e t ih => cases e <;> simp [overrideCalls, ih]

theorem defaultCalls_append (a b : List Event) :
    defaultCalls (a ++ b) = defaultCalls a ++ defaultCalls b := by
  induction a with
  | nil => rfl
  | cons e t ih => cases e <;> simp [defaultCalls, ih]

theorem encoderCalls_append (a b : List Event) :
    encoderCalls (a ++ b) = encoderCalls a ++ encoderCalls b := by
  induction a with
  | nil => rfl
  | cons e t ih => cases e <;> simp [encoderCalls, ih]

theorem requestsBuilt_append (a b : List Event) :
    requestsBuilt (a ++ b) = requestsBuilt a ++ requestsBuilt b := by
  induction a with
  | nil => rfl
  | cons e t ih => cases e <;> simp [requestsBuilt, ih]

theorem nonblank_trim_ne {s : String} (h : ∃ c ∈ s.data, isSpace c = false) :
    TrimSpace s ≠ "" := by
  intro h0
  obtain ⟨c, hc, hs⟩ := h
  have := (TrimSpace_eq_empty_iff s).mp h0 c hc
  simp [this] at hs

/-! ## `Do` -/

/-- C2: for a URL that is empty or white space only, whatever the payload,
the transport override and the context, `Do` returns a nil response and the
empty-callback-URL error, and leaves the world as it was: no call of the
encoder, of `http.NewRequest` or of a transport is recorded, and neither
the override's state nor the network's has changed. -/
theorem Do_blank_URL {σ ν : Type} (env : Env ν) (cb : Callback σ) (ctx : Context)
    (w : World σ ν) (h : ∀ c ∈ cb.URL.data, isSpace c = true) :
    cb.Do env ctx w =
      { cb := cb, resp := none, err := some errEmptyCallbackURL, world := w } := by
  have h0 := (TrimSpace_eq_empty_iff cb.URL).mpr h
  simp [Callback.Do, Callback.Validate, h0]

/-- C2 at the URL `" \t\n"` with a structured payload and an override. -/
theorem Do_blank_URL_witness :
    (blankCallback.Do quietEnv Context.Background (World.start 0)).err.map errorText
      = some "empty callback URL" ∧
    (blankCallback.Do quietEnv Context.Background (World.start 0)).resp = none ∧
    (blankCallback.Do quietEnv Context.Background (World.start 0)).world.rt = 0 ∧
    handed (blankCallback.Do quietEnv Context.Background (World.start 0)).world.trace = [] ∧
    encoderCalls (blankCallback.Do quietEnv Context.Background (World.start 0)).world.trace
      = [] := by
  rw [Do_blank_URL quietEnv blankCallback Context.Background (World.start 0) (by decide)]
  exact ⟨rfl, rfl, rfl, rfl, rfl⟩

/-! ### The `http.Client` over the override -/

theorem handed_roundTrips (reqs : List Request) :
    handed (reqs.map Event.overrideRoundTrip) = [] := by
  induction reqs with
  | nil => rfl
  | cons r t ih => simpa [handed] using ih

theorem defaultCalls_roundTrips (reqs : List Request) :
    defaultCalls (reqs.map Event.overrideRoundTrip) = [] := by
  induction reqs with
  | nil => rfl
  | cons r t ih => simpa [defaultCalls] using ih

theorem encoderCalls_roundTrips (reqs : List Request) :
    encoderCalls (reqs.map Event.overrideRoundTrip) = [] := by
  induction reqs with
  | nil => rfl
  | cons r t ih => simpa [encoderCalls] using ih

theorem requestsBuilt_roundTrips (reqs : List Request) :
    requestsBuilt (reqs.map Event.overrideRoundTrip) = [] := by
  induction reqs with
  | nil => rfl
  | cons r t ih => simpa [requestsBuilt] using ih

theorem overrideCalls_roundTrips (reqs : List Request) :
    overrideCalls (reqs.map Event.overrideRoundTrip) = reqs := by
  induction reqs with
  | nil => rfl
  | cons r t ih => simpa [overrideCalls] using ih

/-- The world after one `send`: the override has been called once, with the
instrumented request. -/
theorem send_world {σ ν : Type} (env : Env ν) (base : RoundTripper σ) (req : Request)
    (w : World σ ν) :
    (send env base req w).2 =
      { rt := (base.RoundTrip (instrument env (withBasicAuth env req)) w.rt).2, net := w.net,
        trace := w.trace ++ [Event.overrideRoundTrip (instrument env (withBasicAuth env req))] } := by
  unfold send ochttpRoundTrip
  rcases h : base.RoundTrip (instrument env (withBasicAuth env req)) w.rt with ⟨⟨resp, err⟩, s⟩
  cases ht : env.traced (withBasicAuth env req) <;> cases resp <;> cases err <;> simp [h, ht]

/-- What one `send` returns, by what the override returned. -/
theorem send_result {σ ν : Type} (env : Env ν) (base : RoundTripper σ) (req : Request)
    (w : World σ ν) :
    (send env base req w).1 =
      match (base.RoundTrip (instrument env (withBasicAuth env req)) w.rt).1 with
      | (_, some err) => some (.error (sendError err))
      | (some resp, none) => some (.ok resp)
      | (none, none) => if env.traced (withBasicAuth env req) then none else some (.error errNilResponse) := by
  unfold send ochttpRoundTrip
  rcases h : base.RoundTrip (instrument env (withBasicAuth env req)) w.rt with ⟨⟨resp, err⟩, s⟩
  cases ht : env.traced (withBasicAuth env req) <;> cases resp <;> cases err <;> simp [h, ht]


/-- The calls an `http.Client` call adds to the trace are calls of the
override, at least one; the network's state is not touched. -/
theorem clientLoop_trace {σ ν : Type} (env : Env ν) (base : RoundTripper σ) (ireq : Request) :
    ∀ (hops : Nat) (req : Request) (w : World σ ν),
      ∃ more : List Request,
        (clientLoop env base ireq hops req w).world.trace =
          w.trace ++ (instrument env (withBasicAuth env req) :: more).map Event.overrideRoundTrip ∧
        (clientLoop env base ireq hops req w).world.net = w.net := by
  intro hops
  induction hops with
  | zero =>
    intro req w
    have hw := send_world env base req w
    rw [clientLoop]
    rcases hs : send env base req w with ⟨r, w1⟩
    rw [hs] at hw
    simp only at hw
    subst hw
    refine ⟨[], ?_⟩
    rcases r with _ | r
    · simp
    · rcases r with e | resp
      · simp
      · simp only
        split
        · simp
        · split
          · simp
          · split <;> simp
  | succ n ih =>
    intro req w
    have hw := send_world env base req w
    rw [clientLoop]
    rcases hs : send env base req w with ⟨r, w1⟩
    rw [hs] at hw
    simp only at hw
    subst hw
    rcases r with _ | r
    · exact ⟨[], by simp⟩
    · rcases r with e | resp
      · exact ⟨[], by simp⟩
      · simp only
        split
        · exact ⟨[], by simp⟩
        · split
          · exact ⟨[], by simp⟩
          · split
            · exact ⟨[], by simp⟩
            · rename_i req1 _
              obtain ⟨more, h1, h2⟩ := ih req1
                { rt := (base.RoundTrip (instrument env (withBasicAuth env req)) w.rt).2, net := w.net,
                  trace := w.trace ++ [Event.overrideRoundTrip (instrument env (withBasicAuth env req))] }
              exact ⟨instrument env (withBasicAuth env req1) :: more, by rw [h1]; simp, by rw [h2]⟩


theorem shouldRedirect_method (m : String) (r : Response) :
    (redirectBehavior m r).2.1 = (redirectBehavior "POST" r).2.1 := by
  unfold redirectBehavior
  split
  · rfl
  · split <;> rfl

/-- A call of the override that returns an error: the `http.Client` returns
it wrapped, with no response, after that one call. -/
theorem clientLoop_error {σ ν : Type} (env : Env ν) (base : RoundTripper σ)
    (ireq req : Request) (hops : Nat) (w : World σ ν) (e : Error)
    (h : (base.RoundTrip (instrument env (withBasicAuth env req)) w.rt).1.2 = some e) :
    clientLoop env base ireq hops req w =
      { res := (none, some (Error.urlError (urlErrorOp ireq.Method) (env.urlRedacted req.URL)
          (sendError e))),
        world := { rt := (base.RoundTrip (instrument env (withBasicAuth env req)) w.rt).2, net := w.net,
                   trace := w.trace ++ [Event.overrideRoundTrip (instrument env (withBasicAuth env req))] } } := by
  have hw := send_world env base req w
  have hr := send_result env base req w
  rcases hb : base.RoundTrip (instrument env (withBasicAuth env req)) w.rt with ⟨⟨resp, err⟩, s⟩
  rw [hb] at h hw hr
  simp only at h
  subst h
  rcases hs : send env base req w with ⟨r, w1⟩
  rw [hs] at hw hr
  simp only at hw hr
  subst hw hr
  cases hops <;> rw [clientLoop, hs]

/-- A call of the override that returns a response the client does not
follow: the `http.Client` returns it, with no error, after that one call. -/
theorem clientLoop_response {σ ν : Type} (env : Env ν) (base : RoundTripper σ)
    (ireq req : Request) (hops : Nat) (w : World σ ν) (r : Response)
    (h : (base.RoundTrip (instrument env (withBasicAuth env req)) w.rt).1 = (some r, none))
    (hnf : followsRedirect r = false) :
    clientLoop env base ireq hops req w =
      { res := (some r, none),
        world := { rt := (base.RoundTrip (instrument env (withBasicAuth env req)) w.rt).2, net := w.net,
                   trace := w.trace ++ [Event.overrideRoundTrip (instrument env (withBasicAuth env req))] } } := by
  have hw := send_world env base req w
  have hr := send_result env base req w
  rcases hb : base.RoundTrip (instrument env (withBasicAuth env req)) w.rt with ⟨res, s⟩
  rw [hb] at h hw hr
  simp only at h
  subst h
  rcases hs : send env base req w with ⟨r1, w1⟩
  rw [hs] at hw hr
  simp only at hw hr
  subst hw hr
  have hm := shouldRedirect_method req.Method r
  simp only [followsRedirect, Bool.and_eq_false_iff, bne_eq_false_iff_eq] at hnf
  cases hops <;> rw [clientLoop, hs] <;> simp only <;> split
  all_goals first
    | rfl
    | (rename_i heq
       rw [heq] at hm
       simp only at hm
       rcases hnf with hnf | hnf
       · rw [hnf] at hm
         exact absurd hm (by decide)
       · simp [hnf])

/-- A traced call of the override that returns neither a response nor an
error: the call does not return. -/
theorem clientLoop_nil {σ ν : Type} (env : Env ν) (base : RoundTripper σ)
    (ireq req : Request) (hops : Nat) (w : World σ ν)
    (h : (base.RoundTrip (instrument env (withBasicAuth env req)) w.rt).1 = (none, none))
    (ht : env.traced (withBasicAuth env req) = true) :
    (clientLoop env base ireq hops req w).panicked = true := by
  have hr := send_result env base req w
  rw [h] at hr
  simp only [ht, if_true] at hr
  rcases hs : send env base req w with ⟨r1, w1⟩
  rw [hs] at hr
  simp only at hr
  subst hr
  cases hops <;> rw [clientLoop, hs]


/-! ### Dispatch -/

/-- What `Do` does once the URL is accepted and parses and the payload is
encoded: the calls it records and the results it returns. -/
theorem Do_dispatch {σ ν : Type} (env : Env ν) (cb : Callback σ) (ctx : Context)
    (w : World σ ν) (body : Option Bytes) (isJSON : Bool) (evs : List Event)
    (hurl : TrimSpace cb.URL ≠ "")
    (henc : encodeBody cb.Payload = (.ok (body, isJSON), evs))
    (hparse : env.urlParse (TrimSpace cb.URL) = none) :
    cb.Do env ctx w =
      let cb1 : Callback σ := { cb with URL := TrimSpace cb.URL }
      let req : Request :=
        { Method := "POST", URL := TrimSpace cb.URL,
          Header := if isJSON then [("Content-Type", "application/json")] else [],
          Body := body, ctx := ctx }
      let w1 : World σ ν :=
        { w with trace := w.trace ++ evs ++ [Event.newRequest (TrimSpace cb.URL), dispatchCall cb req] }
      match cb.RoundTripper with
      | some rt =>
        { cb := cb1, resp := (httpClientDo env rt req w1).res.1,
          err := (httpClientDo env rt req w1).res.2,
          world := (httpClientDo env rt req w1).world,
          panicked := (httpClientDo env rt req w1).panicked }
      | none =>
        { cb := cb1, resp := (env.pesterDo defaultClient req w.net).1.1,
          err := (env.pesterDo defaultClient req w.net).1.2,
          world := { w1 with net := (env.pesterDo defaultClient req w.net).2 } } := by
  cases hrt : cb.RoundTripper with
  | none =>
    cases isJSON <;>
      simp [Callback.Do, Callback.Validate, hurl, henc, hparse, NewRequest, hrt, httpDoer.Do,
        Request.WithContext, dispatchCall, Header.Set]
  | some rt =>
    cases isJSON <;>
      simp [Callback.Do, Callback.Validate, hurl, henc, hparse, NewRequest, hrt, httpDoer.Do,
        Request.WithContext, dispatchCall, Header.Set]

/-- The trace `Do` leaves once the URL is accepted and parses and the payload
is encoded: the encoder's call, the request built, the request handed to the
client, and then only calls of the override. -/
theorem Do_dispatch_trace {σ ν : Type} (env : Env ν) (cb : Callback σ) (ctx : Context)
    (w : World σ ν) (body : Option Bytes) (isJSON : Bool) (evs : List Event)
    (hurl : TrimSpace cb.URL ≠ "")
    (henc : encodeBody cb.Payload = (.ok (body, isJSON), evs))
    (hparse : env.urlParse (TrimSpace cb.URL) = none) :
    ∃ calls : List Request,
      (cb.Do env ctx w).world.trace =
        w.trace ++ evs ++ [Event.newRequest (TrimSpace cb.URL), dispatchCall cb
          { Method := "POST", URL := TrimSpace cb.URL,
            Header := if isJSON then [("Content-Type", "application/json")] else [],
            Body := body, ctx := ctx }] ++ calls.map Event.overrideRoundTrip := by
  rw [Do_dispatch env cb ctx w body isJSON evs hurl henc hparse]
  cases hrt : cb.RoundTripper with
  | none => exact ⟨[], by simp⟩
  | some rt =>
    simp only [httpClientDo]
    obtain ⟨more, h1, _⟩ := clientLoop_trace env rt
      { Method := "POST", URL := TrimSpace cb.URL,
        Header := if isJSON then [("Content-Type", "application/json")] else [],
        Body := body, ctx := ctx } 9
      { Method := "POST", URL := TrimSpace cb.URL,
        Header := if isJSON then [("Content-Type", "application/json")] else [],
        Body := body, ctx := ctx }
      { w with trace := w.trace ++ evs ++ [Event.newRequest (TrimSpace cb.URL), dispatchCall cb
          { Method := "POST", URL := TrimSpace cb.URL,
            Header := if isJSON then [("Content-Type", "application/json")] else [],
            Body := body, ctx := ctx }] }
    exact ⟨_, h1⟩

/-- What `Do` does when the URL is accepted, the payload is encoded and the
URL does not parse. -/
theorem Do_parse_error {σ ν : Type} (env : Env ν) (cb : Callback σ) (ctx : Context)
    (w : World σ ν) (body : Option Bytes) (isJSON : Bool) (evs : List Event) (e : Error)
    (hurl : TrimSpace cb.URL ≠ "")
    (henc : encodeBody cb.Payload = (.ok (body, isJSON), evs))
    (hparse : env.urlParse (TrimSpace cb.URL) = some e) :
    cb.Do env ctx w =
      { cb := { cb with URL := TrimSpace cb.URL }, resp := none, err := some e,
        world := { w with trace := w.trace ++ evs ++ [Event.newRequest (TrimSpace cb.URL)] } } := by
  simp [Callback.Do, Callback.Validate, hurl, henc, hparse, NewRequest]

theorem handed_dispatchCall {σ : Type} (cb : Callback σ) (req : Request) :
    handed [dispatchCall cb req] = [req] := by
  unfold dispatchCall
  cases cb.RoundTripper <;> rfl

theorem encoderCalls_dispatchCall {σ : Type} (cb : Callback σ) (req : Request) :
    encoderCalls [dispatchCall cb req] = [] := by
  unfold dispatchCall
  cases cb.RoundTripper <;> rfl

theorem overrideCalls_dispatchCall {σ : Type} (cb : Callback σ) (req : Request) :
    overrideCalls [dispatchCall cb req] = [] := by
  unfold dispatchCall
  cases cb.RoundTripper <;> rfl

theorem defaultCalls_dispatchCall {σ : Type} (cb : Callback σ) (req : Request)
    (rt : RoundTripper σ) (h : cb.RoundTripper = some rt) :
    defaultCalls [dispatchCall cb req] = [] := by
  unfold dispatchCall
  rw [h]
  rfl

/-- Once the URL is accepted and parses and the payload is encoded, `Do`
hands its client exactly one request. -/
theorem Do_dispatch_handed {σ ν : Type} (env : Env ν) (cb : Callback σ) (ctx : Context)
    (w : World σ ν) (body : Option Bytes) (isJSON : Bool) (evs : List Event)
    (hurl : TrimSpace cb.URL ≠ "")
    (henc : encodeBody cb.Payload = (.ok (body, isJSON), evs))
    (hparse : env.urlParse (TrimSpace cb.URL) = none) :
    handed (cb.Do env ctx w).world.trace =
      handed w.trace ++ handed evs ++
        [{ Method := "POST", URL := TrimSpace cb.URL,
           Header := if isJSON then [("Content-Type", "application/json")] else [],
           Body := body, ctx := ctx }] := by
  obtain ⟨calls, h⟩ := Do_dispatch_trace env cb ctx w body isJSON evs hurl henc hparse
  rw [h, handed_append, handed_append, handed_append, handed_roundTrips]
  have := handed_dispatchCall cb
    { Method := "POST", URL := TrimSpace cb.URL,
      Header := if isJSON then [("Content-Type", "application/json")] else [],
      Body := body, ctx := ctx }
  simp only [handed, List.append_nil] at this ⊢
  rw [this]

/-- Once the URL is accepted and parses and the payload is encoded, the only
encoder calls of `Do` are those of the payload switch. -/
theorem Do_dispatch_encoderCalls {σ ν : Type} (env : Env ν) (cb : Callback σ) (ctx : Context)
    (w : World σ ν) (body : Option Bytes) (isJSON : Bool) (evs : List Event)
    (hurl : TrimSpace cb.URL ≠ "")
    (henc : encodeBody cb.Payload = (.ok (body, isJSON), evs))
    (hparse : env.urlParse (TrimSpace cb.URL) = none) :
    encoderCalls (cb.Do env ctx w).world.trace = encoderCalls w.trace ++ encoderCalls evs := by
  obtain ⟨calls, h⟩ := Do_dispatch_trace env cb ctx w body isJSON evs hurl henc hparse
  rw [h, encoderCalls_append, encoderCalls_append, encoderCalls_append, encoderCalls_roundTrips]
  have := encoderCalls_dispatchCall cb
    { Method := "POST", URL := TrimSpace cb.URL,
      Header := if isJSON then [("Content-Type", "application/json")] else [],
      Body := body, ctx := ctx }
  simp only [encoderCalls, List.append_nil] at this ⊢
  rw [this]
  simp

/-- The payload switch succeeds unless the JSON encoder fails. -/
theorem encodeBody_ok (p : Payload)
    (h : ∀ v, p = Payload.other v → ∃ out, marshal false v = .ok out) :
    ∃ body evs, encodeBody p = (.ok (body, p.isStructured), evs) ∧
      handed evs = [] ∧ overrideCalls evs = [] ∧ defaultCalls evs = [] := by
  cases p with
  | nil => exact ⟨_, _, rfl, rfl, rfl, rfl⟩
  | bytes b => exact ⟨_, _, rfl, rfl, rfl, rfl⟩
  | string s => exact ⟨_, _, rfl, rfl, rfl, rfl⟩
  | other v =>
    obtain ⟨out, hout⟩ := h v rfl
    refine ⟨some (encodeRunes (out ++ ['\n'])), [Event.jsonEncode v], ?_, rfl, rfl, rfl⟩
    simp [encodeBody, Encoder.Encode, Encoder.SetEscapeHTML, hout, Payload.isStructured]

/-- C3: for a URL that is not blank and a payload that is a byte slice or a
string, a call of `Do` hands a transport nothing when the trimmed URL does
not parse, and otherwise exactly one request, whose body is the input bytes
(for a string, its bytes) as they are; the JSON encoder is not called. -/
theorem Do_raw_payload_body {σ ν : Type} (env : Env ν) (cb : Callback σ) (ctx : Context)
    (w : World σ ν) (b : Bytes)
    (hurl : ∃ c ∈ cb.URL.data, isSpace c = false)
    (hp : cb.Payload = Payload.bytes b ∨ ∃ s, cb.Payload = Payload.string s ∧ stringBytes s = b) :
    handed (cb.Do env ctx w).world.trace =
      handed w.trace ++
        (if env.urlParse (TrimSpace cb.URL) = none then
          [{ Method := "POST", URL := TrimSpace cb.URL, Header := [], Body := some b, ctx := ctx }]
        else []) ∧
    encoderCalls (cb.Do env ctx w).world.trace = encoderCalls w.trace := by
  have hne := nonblank_trim_ne hurl
  have henc : encodeBody cb.Payload = (.ok (some b, false), []) := by
    rcases hp with hp | ⟨s, hp, hs⟩
    · rw [hp]; simp [encodeBody]
    · rw [hp]; simp [encodeBody, hs]
  cases hparse : env.urlParse (TrimSpace cb.URL) with
  | none =>
    rw [Do_dispatch_handed env cb ctx w (some b) false [] hne henc hparse,
      Do_dispatch_encoderCalls env cb ctx w (some b) false [] hne henc hparse]
    simp [handed, encoderCalls]
  | some e =>
    rw [Do_parse_error env cb ctx w (some b) false [] e hne henc hparse]
    simp [handed_append, encoderCalls_append, handed, encoderCalls]

/-- C3 at the third test case, a string of quote characters, and at a byte
slice ending in a newline. -/
theorem Do_raw_payload_body_witness :
    handed (({ URL := "https://orijtech.com",
               Payload := Payload.string "\"\"\"\"\"\"\"\"\"\"this is the payload\"\"\"\"\"\"\"\"\"\"",
               RoundTripper := none } : Callback Unit).Do quietEnv Context.Background
                (World.start ())).world.trace
      = [{ Method := "POST", URL := "https://orijtech.com", Header := [],
           Body := some (stringBytes "\"\"\"\"\"\"\"\"\"\"this is the payload\"\"\"\"\"\"\"\"\"\""),
           ctx := Context.Background }] ∧
    handed (({ URL := "https://orijtech.com", Payload := Payload.bytes [0x61, 0x22, 0x0A],
               RoundTripper := none } : Callback Unit).Do quietEnv Context.Background
                (World.start ())).world.trace
      = [{ Method := "POST", URL := "https://orijtech.com", Header := [],
           Body := some [0x61, 0x22, 0x0A], ctx := Context.Background }] := by
  constructor
  · rw [(Do_raw_payload_body quietEnv _ Context.Background (World.start ()) _
      ⟨'h', by decide, by decide⟩ (Or.inr ⟨_, rfl, rfl⟩)).1]
    decide
  · rw [(Do_raw_payload_body quietEnv _ Context.Background (World.start ()) _
      ⟨'h', by decide, by decide⟩ (Or.inl rfl)).1]
    decide

/-- C4: when the URL is not blank, the payload encodes and the trimmed URL
parses, the one request `Do` hands to a transport is a POST to the trimmed
URL under the caller's context, and its header is exactly
`Content-Type: application/json` when the payload is structured (present and
neither a byte slice nor a string) and empty otherwise. -/
theorem Do_request_method_url_header {σ ν : Type} (env : Env ν) (cb : Callback σ)
    (ctx : Context) (w : World σ ν)
    (hurl : ∃ c ∈ cb.URL.data, isSpace c = false)
    (henc : ∀ v, cb.Payload = Payload.other v → ∃ out, marshal false v = .ok out)
    (hparse : env.urlParse (TrimSpace cb.URL) = none) :
    ∃ body : Option Bytes,
      handed (cb.Do env ctx w).world.trace =
        handed w.trace ++
          [{ Method := "POST", URL := TrimSpace cb.URL,
             Header := if cb.Payload.isStructured then [("Content-Type", "application/json")]
                       else [],
             Body := body, ctx := ctx }] := by
  obtain ⟨body, evs, he, hevs, _, _⟩ := encodeBody_ok cb.Payload henc
  refine ⟨body, ?_⟩
  rw [Do_dispatch_handed env cb ctx w body _ evs (nonblank_trim_ne hurl) he hparse, hevs]
  simp

/-- The compact encoding of the first test case's payload. -/
theorem marshal_testPayload :
    marshal false testPayload = .ok "\x7b\"a\":12,\"b\":\x7b\"aa\":\"bb\"\x7d\x7d".data := by decide

/-- C4 at the first test case (structured payload, header set) and at an
absent payload (no header). -/
theorem Do_request_method_url_header_witness :
    (∃ body : Option Bytes,
      handed (({ URL := " https://example.com ", Payload := Payload.other testPayload,
                 RoundTripper := some countingRT } : Callback Nat).Do quietEnv ⟨7⟩
                  (World.start 0)).world.trace
        = [] ++ [{ Method := "POST", URL := "https://example.com",
                   Header := [("Content-Type", "application/json")], Body := body,
                   ctx := ⟨7⟩ }]) ∧
    (∃ body : Option Bytes,
      handed (({ URL := "https://example.com", Payload := Payload.nil,
                 RoundTripper := none } : Callback Nat).Do quietEnv ⟨7⟩
                  (World.start 0)).world.trace
        = [] ++ [{ Method := "POST", URL := "https://example.com",
                   Header := [], Body := body, ctx := ⟨7⟩ }]) :=
  ⟨Do_request_method_url_header quietEnv
      ({ URL := " https://example.com ", Payload := Payload.other testPayload,
         RoundTripper := some countingRT } : Callback Nat) ⟨7⟩ (World.start 0)
      ⟨'h', by decide, by decide⟩
      (fun v hv => by
        have : v = testPayload := by injection hv with h; exact h.symm
        subst this
        exact ⟨_, marshal_testPayload⟩)
      rfl,
   Do_request_method_url_header quietEnv
      ({ URL := "https://example.com", Payload := Payload.nil,
         RoundTripper := none } : Callback Nat) ⟨7⟩ (World.start 0)
      ⟨'h', by decide, by decide⟩ (fun v hv => by cases hv) rfl⟩

/-- C7: for a URL that is not blank and a structured payload the encoder
rejects, `Do` returns a nil response and the encoder's error; the only call
recorded is the encoder's, so no request is built and no transport is called,
and the override's and the network's state are untouched. -/
theorem Do_encoder_error {σ ν : Type} (env : Env ν) (cb : Callback σ) (ctx : Context)
    (w : World σ ν) (v : GoValue) (e : Error)
    (hurl : ∃ c ∈ cb.URL.data, isSpace c = false)
    (hp : cb.Payload = Payload.other v)
    (he : marshal false v = .error e) :
    cb.Do env ctx w =
      { cb := { cb with URL := TrimSpace cb.URL }, resp := none, err := some e,
        world := { w with trace := w.trace ++ [Event.jsonEncode v] } } ∧
    requestsBuilt (cb.Do env ctx w).world.trace = requestsBuilt w.trace ∧
    handed (cb.Do env ctx w).world.trace = handed w.trace := by
  have hne := nonblank_trim_ne hurl
  have hD : cb.Do env ctx w =
      { cb := { cb with URL := TrimSpace cb.URL }, resp := none, err := some e,
        world := { w with trace := w.trace ++ [Event.jsonEncode v] } } := by
    simp [Callback.Do, Callback.Validate, hne, hp, encodeBody, Encoder.Encode,
      Encoder.SetEscapeHTML, he]
  refine ⟨hD, ?_, ?_⟩
  · rw [hD, requestsBuilt_append]
    simp [requestsBuilt]
  · rw [hD, handed_append]
    simp [handed]

/-- C7 at a slice holding a channel. -/
theorem Do_encoder_error_witness :
    handed (({ URL := "https://example.com",
               Payload := Payload.other (.arr (.cons (.int 1) (.cons .unsupported .nil))),
               RoundTripper := some countingRT } : Callback Nat).Do quietEnv Context.Background
                (World.start 0)).world.trace = [] ∧
    (({ URL := "https://example.com",
        Payload := Payload.other (.arr (.cons (.int 1) (.cons .unsupported .nil))),
        RoundTripper := some countingRT } : Callback Nat).Do quietEnv Context.Background
          (World.start 0)).err = some Error.unsupportedType := by
  rw [(Do_encoder_error quietEnv _ Context.Background (World.start 0)
    (.arr (.cons (.int 1) (.cons .unsupported .nil))) Error.unsupportedType
    ⟨'h', by decide, by decide⟩ rfl (by decide)).1]
  exact ⟨rfl, rfl⟩

/-- C9, the code at the claim's example: for destination `https://example.com`
and payload `{"a": 12, "b": {"aa": "bb"}}` the body of the request `Do` hands
to the default client is `{"a":12,"b":{"aa":"bb"}}` followed by the newline
byte the streaming encoder appends, which is not the output of `json.Marshal`:
the newline is still there. -/
theorem Do_example_body_keeps_newline {ν : Type} (env : Env ν) (ctx : Context)
    (w : World Unit ν) :
    handed (exampleCallback.Do env ctx w).world.trace =
      handed w.trace ++
        (if env.urlParse "https://example.com" = none then
          [{ Method := "POST", URL := "https://example.com",
             Header := [("Content-Type", "application/json")],
             Body := some (stringBytes "\x7b\"a\":12,\"b\":\x7b\"aa\":\"bb\"\x7d\x7d" ++ [0x0A]),
             ctx := ctx }]
        else []) ∧
    jsonMarshal testPayload = .ok (stringBytes "\x7b\"a\":12,\"b\":\x7b\"aa\":\"bb\"\x7d\x7d") ∧
    some (stringBytes "\x7b\"a\":12,\"b\":\x7b\"aa\":\"bb\"\x7d\x7d" ++ [0x0A])
      ≠ some (stringBytes "\x7b\"a\":12,\"b\":\x7b\"aa\":\"bb\"\x7d\x7d") := by
  have htrim : TrimSpace exampleCallback.URL = "https://example.com" := by decide
  have hne : TrimSpace exampleCallback.URL ≠ "" := by decide
  have henc : encodeBody exampleCallback.Payload =
      (.ok (some (stringBytes "\x7b\"a\":12,\"b\":\x7b\"aa\":\"bb\"\x7d\x7d" ++ [0x0A]), true),
        [Event.jsonEncode testPayload]) := by
    have hb : (NewEncoder.SetEscapeHTML false).Encode [] testPayload =
        .ok (stringBytes "\x7b\"a\":12,\"b\":\x7b\"aa\":\"bb\"\x7d\x7d" ++ [0x0A]) := by decide
    simp only [encodeBody, exampleCallback, hb]
  refine ⟨?_, by decide, by decide⟩
  cases hparse : env.urlParse "https://example.com" with
  | none =>
    rw [Do_dispatch_handed env exampleCallback ctx w _ true _ hne henc (htrim ▸ hparse), htrim]
    simp [handed]
  | some e =>
    rw [Do_parse_error env exampleCallback ctx w _ true _ e hne henc (htrim ▸ hparse)]
    rw [handed_append, handed_append]
    simp [handed]

/-! ## Overrides and retries -/

theorem encodeBody_events (p : Payload) (r : Except Error (Option Bytes × Bool))
    (evs : List Event) (h : encodeBody p = (r, evs)) :
    handed evs = [] ∧ overrideCalls evs = [] ∧ defaultCalls evs = [] := by
  cases p with
  | nil => simp only [encodeBody, Prod.mk.injEq] at h; rw [← h.2]; exact ⟨rfl, rfl, rfl⟩
  | bytes b => simp only [encodeBody, Prod.mk.injEq] at h; rw [← h.2]; exact ⟨rfl, rfl, rfl⟩
  | string s => simp only [encodeBody, Prod.mk.injEq] at h; rw [← h.2]; exact ⟨rfl, rfl, rfl⟩
  | other v =>
    simp only [encodeBody] at h
    split at h <;> simp only [Prod.mk.injEq] at h <;> rw [← h.2] <;> exact ⟨rfl, rfl, rfl⟩

theorem instrument_Body {ν : Type} (env : Env ν) (req : Request) :
    (instrument env (withBasicAuth env req)).Body = req.Body := by
  unfold instrument withBasicAuth
  split <;> split <;> try split
  all_goals rfl

theorem followsRedirect_200 (r : Response) (h : r.StatusCode = 200) :
    followsRedirect r = false := by
  simp [followsRedirect, redirectBehavior, h]

/-- With an override, once the URL is accepted and parses and the payload is
encoded: the override is called with the instrumented request, the default
client is not called and the network's state is untouched. -/
theorem Do_override_calls {σ ν : Type} (env : Env ν) (cb : Callback σ) (ctx : Context)
    (w : World σ ν) (rt : RoundTripper σ) (body : Option Bytes) (isJSON : Bool)
    (evs : List Event) (req : Request)
    (hrt : cb.RoundTripper = some rt)
    (hurl : TrimSpace cb.URL ≠ "")
    (henc : encodeBody cb.Payload = (.ok (body, isJSON), evs))
    (hparse : env.urlParse (TrimSpace cb.URL) = none)
    (hreq : req = { Method := "POST", URL := TrimSpace cb.URL,
                    Header := if isJSON then [("Content-Type", "application/json")] else [],
                    Body := body, ctx := ctx }) :
    (∃ more : List Request,
      overrideCalls (cb.Do env ctx w).world.trace =
        overrideCalls w.trace ++ instrument env (withBasicAuth env req) :: more) ∧
    defaultCalls (cb.Do env ctx w).world.trace = defaultCalls w.trace ∧
    (cb.Do env ctx w).world.net = w.net := by
  obtain ⟨_, hov, hdf⟩ := encodeBody_events _ _ _ henc
  rw [Do_dispatch env cb ctx w body isJSON evs hurl henc hparse]
  simp only [hrt, httpClientDo]
  rw [← hreq]
  obtain ⟨more, h1, h2⟩ := clientLoop_trace env rt req 9 req
    (World.mk w.rt w.net
      (w.trace ++ evs ++ [Event.newRequest (TrimSpace cb.URL), dispatchCall cb req]))
  have hd1 := overrideCalls_dispatchCall cb req
  have hd2 := defaultCalls_dispatchCall cb req rt hrt
  simp only [overrideCalls, defaultCalls] at hd1 hd2
  refine ⟨⟨more, ?_⟩, ?_, h2⟩
  · rw [h1, overrideCalls_append, overrideCalls_append, overrideCalls_append,
      overrideCalls_roundTrips, hov]
    simp only [overrideCalls, hd1, List.append_nil, List.nil_append]
  · rw [h1, defaultCalls_append, defaultCalls_append, defaultCalls_append,
      defaultCalls_roundTrips, hdf]
    simp only [defaultCalls, hd2, List.append_nil]

/-- With an override whose first call returns an error: `Do` returns it
wrapped in a `*url.Error`, with no response, after that one call. -/
theorem Do_override_error {σ ν : Type} (env : Env ν) (cb : Callback σ) (ctx : Context)
    (w : World σ ν) (rt : RoundTripper σ) (body : Option Bytes) (isJSON : Bool)
    (evs : List Event) (req : Request) (e : Error)
    (hrt : cb.RoundTripper = some rt)
    (hurl : TrimSpace cb.URL ≠ "")
    (henc : encodeBody cb.Payload = (.ok (body, isJSON), evs))
    (hparse : env.urlParse (TrimSpace cb.URL) = none)
    (hreq : req = { Method := "POST", URL := TrimSpace cb.URL,
                    Header := if isJSON then [("Content-Type", "application/json")] else [],
                    Body := body, ctx := ctx })
    (he : (rt.RoundTrip (instrument env (withBasicAuth env req)) w.rt).1.2 = some e) :
    (cb.Do env ctx w).resp = none ∧
    (cb.Do env ctx w).err =
      some (Error.urlError "Post" (env.urlRedacted (TrimSpace cb.URL)) (sendError e)) ∧
    overrideCalls (cb.Do env ctx w).world.trace =
      overrideCalls w.trace ++ [instrument env (withBasicAuth env req)] ∧
    (cb.Do env ctx w).world.rt = (rt.RoundTrip (instrument env (withBasicAuth env req)) w.rt).2 ∧
    (cb.Do env ctx w).panicked = false := by
  obtain ⟨_, hov, _⟩ := encodeBody_events _ _ _ henc
  have hd1 := overrideCalls_dispatchCall cb req
  simp only [overrideCalls] at hd1
  have hm : urlErrorOp req.Method = "Post" := by
    have hp : urlErrorOp "POST" = "Post" := by decide
    rw [hreq]
    exact hp
  have hu : req.URL = TrimSpace cb.URL := by rw [hreq]
  rw [Do_dispatch env cb ctx w body isJSON evs hurl henc hparse]
  simp only [hrt, httpClientDo]
  rw [← hreq]
  rw [clientLoop_error env rt req req 9
    (World.mk w.rt w.net
      (w.trace ++ evs ++ [Event.newRequest (TrimSpace cb.URL), dispatchCall cb req])) e he]
  refine ⟨rfl, by simp only [hm, hu], ?_, rfl, rfl⟩
  simp only [overrideCalls_append, hov, overrideCalls, hd1, List.append_nil, List.nil_append]

/-- With an override whose first call returns a response the client does not
follow: `Do` returns that response, with no error, after that one call. -/
theorem Do_override_response {σ ν : Type} (env : Env ν) (cb : Callback σ) (ctx : Context)
    (w : World σ ν) (rt : RoundTripper σ) (body : Option Bytes) (isJSON : Bool)
    (evs : List Event) (req : Request) (r : Response)
    (hrt : cb.RoundTripper = some rt)
    (hurl : TrimSpace cb.URL ≠ "")
    (henc : encodeBody cb.Payload = (.ok (body, isJSON), evs))
    (hparse : env.urlParse (TrimSpace cb.URL) = none)
    (hreq : req = { Method := "POST", URL := TrimSpace cb.URL,
                    Header := if isJSON then [("Content-Type", "application/json")] else [],
                    Body := body, ctx := ctx })
    (hr : (rt.RoundTrip (instrument env (withBasicAuth env req)) w.rt).1 = (some r, none))
    (hnf : followsRedirect r = false) :
    (cb.Do env ctx w).resp = some r ∧
    (cb.Do env ctx w).err = none ∧
    overrideCalls (cb.Do env ctx w).world.trace =
      overrideCalls w.trace ++ [instrument env (withBasicAuth env req)] ∧
    (cb.Do env ctx w).world.rt = (rt.RoundTrip (instrument env (withBasicAuth env req)) w.rt).2 ∧
    (cb.Do env ctx w).panicked = false := by
  obtain ⟨_, hov, _⟩ := encodeBody_events _ _ _ henc
  have hd1 := overrideCalls_dispatchCall cb req
  simp only [overrideCalls] at hd1
  rw [Do_dispatch env cb ctx w body isJSON evs hurl henc hparse]
  simp only [hrt, httpClientDo]
  rw [← hreq]
  rw [clientLoop_response env rt req req 9
    (World.mk w.rt w.net
      (w.trace ++ evs ++ [Event.newRequest (TrimSpace cb.URL), dispatchCall cb req])) r hr hnf]
  refine ⟨rfl, rfl, ?_, rfl, rfl⟩
  simp only [overrideCalls_append, hov, overrideCalls, hd1, List.append_nil, List.nil_append]

/-- With an override whose first call, traced, returns neither a response
nor an error: `Do` does not return. -/
theorem Do_override_nil {σ ν : Type} (env : Env ν) (cb : Callback σ) (ctx : Context)
    (w : World σ ν) (rt : RoundTripper σ) (body : Option Bytes) (isJSON : Bool)
    (evs : List Event) (req : Request)
    (hrt : cb.RoundTripper = some rt)
    (hurl : TrimSpace cb.URL ≠ "")
    (henc : encodeBody cb.Payload = (.ok (body, isJSON), evs))
    (hparse : env.urlParse (TrimSpace cb.URL) = none)
    (hreq : req = { Method := "POST", URL := TrimSpace cb.URL,
                    Header := if isJSON then [("Content-Type", "application/json")] else [],
                    Body := body, ctx := ctx })
    (hn : (rt.RoundTrip (instrument env (withBasicAuth env req)) w.rt).1 = (none, none))
    (ht : env.traced (withBasicAuth env req) = true) :
    (cb.Do env ctx w).panicked = true := by
  rw [Do_dispatch env cb ctx w body isJSON evs hurl henc hparse]
  simp only [hrt, httpClientDo]
  rw [← hreq]
  exact clientLoop_nil env rt req req 9
    (World.mk w.rt w.net
      (w.trace ++ evs ++ [Event.newRequest (TrimSpace cb.URL), dispatchCall cb req])) hn ht

theorem followsRedirect_503 (r : Response) (h : r.StatusCode = 503) :
    followsRedirect r = false := by
  simp [followsRedirect, redirectBehavior, h]

theorem flakyRT_failsFirst (n : Nat) : ∀ k s : Nat, s + k = n → FailsFirst (flakyRT n) k s := by
  intro k
  induction k with
  | zero =>
    intro s hs req
    have hge : ¬ s < n := by omega
    simp [flakyRT, hge]
  | succ k ih =>
    intro s hs req
    have hlt : s < n := by omega
    refine ⟨by simp [flakyRT, hlt], ?_⟩
    have : (((flakyRT n).RoundTrip req s).2) = s + 1 := by simp [flakyRT, hlt]
    rw [this]
    exact ih (s + 1) (by omega)

/-- What the test's transport does from `curTries = k` with `n` tries left. -/
theorem customRT_RoundTrip_eq (n : Nat) :
    ∀ (k : Nat) (req : Request) (cr : customRT),
      cr.curTries = (k : Int) → cr.maxTries = (k : Int) + (n : Int) →
      customRT.RoundTrip req cr =
        ((some { Body := req.Body.getD [], StatusCode := 200, Status := "200 OK",
                 ContentLength := (req.Body.getD []).length,
                 Header := [("X-Log", cr.log ++ (countLog k n ++ "Final Write\n"))] }, none),
         { log := cr.log ++ (countLog k n ++ "Final Write\n"), maxTries := cr.maxTries,
           curTries := cr.maxTries }) := by
  induction n with
  | zero =>
    intro k req cr hc hm
    rw [customRT.RoundTrip]
    have hlt : ¬ cr.curTries < cr.maxTries := by omega
    have hcm : cr.curTries = cr.maxTries := by omega
    simp [hlt, countLog, Header.Set, hcm]
  | succ n ih =>
    intro k req cr hc hm
    rw [customRT.RoundTrip]
    have hlt : cr.curTries < cr.maxTries := by omega
    simp only [hlt, if_true]
    rw [ih (k + 1) _ _ (by simp [hc]) (by simp [hm]; omega)]
    simp [countLog, hc, String.append_assoc]

/-- C6 as stated fails: an override that answers its first call with a 302
and a `Location` is called a second time by the `http.Client`, and `Do`
returns the 200 of the second call, not the 302 the first call produced; and
an override's error comes back wrapped in a `*url.Error`, not as it was. -/
theorem Do_redirect_override_counterexample :
    ((overrideCalls
        (redirectCallback.Do quietEnv Context.Background (World.start 0)).world.trace).map
        fun r => (r.Method, r.URL, r.Body))
      = [("POST", "https://orijtech.com", some (stringBytes "this is the payload")),
         ("GET", "https://example.com/next", none)] ∧
    (redirectCallback.Do quietEnv Context.Background (World.start 0)).world.rt = 2 ∧
    ((redirectRT.RoundTrip
        { Method := "POST", URL := "https://orijtech.com", Header := [],
          Body := some (stringBytes "this is the payload"), ctx := Context.Background } 0).1.1.map
        fun r => r.StatusCode) = some 302 ∧
    ((redirectCallback.Do quietEnv Context.Background (World.start 0)).resp.map
        fun r => r.StatusCode) = some 200 ∧
    ((flakyRT 1).RoundTrip
        { Method := "POST", URL := "https://orijtech.com", Header := [],
          Body := some (stringBytes "this is the payload"), ctx := Context.Background } 0).1.2
      = some transportFailure ∧
    ((flakyCallback 1).Do quietEnv Context.Background (World.start 0)).err
      = some (Error.urlError "Post" "https://orijtech.com" transportFailure) ∧
    ¬ ((overrideCalls
          (redirectCallback.Do quietEnv Context.Background (World.start 0)).world.trace).length
        = 1) := by
  refine ⟨by decide, by decide, by decide, by decide, by decide, by decide, by decide⟩

/-- C6 as amended: with a transport override, a URL that is not blank and
parses, and a payload that encodes, `Do` hands one request to the
`http.Client` over the override and none to the default client, and the
client calls the override with that request as `net/http` and `ochttp`
prepare it (`withBasicAuth`, `instrument`). If that call returns a response
and no error, and the response is not a redirect the client follows (a 301,
302, 303, 307 or 308 with a `Location`), `Do` returns that response with no
error, whatever its status, and the override has been called once. If that
call returns an error, `Do` returns no response and the error (as `sendError`
leaves it) wrapped in a `*url.Error` for `Post`, and the override has been
called once. If a traced call returns neither, `Do` does not return. -/
theorem Do_override_client {σ ν : Type} (env : Env ν) (cb : Callback σ) (ctx : Context)
    (w : World σ ν) (rt : RoundTripper σ)
    (hrt : cb.RoundTripper = some rt)
    (hurl : ∃ c ∈ cb.URL.data, isSpace c = false)
    (henc : ∀ v, cb.Payload = Payload.other v → ∃ out, marshal false v = .ok out)
    (hparse : env.urlParse (TrimSpace cb.URL) = none) :
    ∃ req : Request,
      req.Method = "POST" ∧ req.URL = TrimSpace cb.URL ∧
      handed (cb.Do env ctx w).world.trace = handed w.trace ++ [req] ∧
      defaultCalls (cb.Do env ctx w).world.trace = defaultCalls w.trace ∧
      (cb.Do env ctx w).world.net = w.net ∧
      (∃ more : List Request,
        overrideCalls (cb.Do env ctx w).world.trace =
          overrideCalls w.trace ++ instrument env (withBasicAuth env req) :: more) ∧
      (∀ r : Response, (rt.RoundTrip (instrument env (withBasicAuth env req)) w.rt).1 = (some r, none) →
        followsRedirect r = false →
          (cb.Do env ctx w).resp = some r ∧ (cb.Do env ctx w).err = none ∧
          overrideCalls (cb.Do env ctx w).world.trace =
            overrideCalls w.trace ++ [instrument env (withBasicAuth env req)] ∧
          (cb.Do env ctx w).world.rt = (rt.RoundTrip (instrument env (withBasicAuth env req)) w.rt).2 ∧
          (cb.Do env ctx w).panicked = false) ∧
      (∀ e : Error, (rt.RoundTrip (instrument env (withBasicAuth env req)) w.rt).1.2 = some e →
          (cb.Do env ctx w).resp = none ∧
          (cb.Do env ctx w).err =
            some (Error.urlError "Post" (env.urlRedacted (TrimSpace cb.URL)) (sendError e)) ∧
          overrideCalls (cb.Do env ctx w).world.trace =
            overrideCalls w.trace ++ [instrument env (withBasicAuth env req)] ∧
          (cb.Do env ctx w).world.rt = (rt.RoundTrip (instrument env (withBasicAuth env req)) w.rt).2 ∧
          (cb.Do env ctx w).panicked = false) ∧
      ((rt.RoundTrip (instrument env (withBasicAuth env req)) w.rt).1 = (none, none) → env.traced (withBasicAuth env req) = true →
          (cb.Do env ctx w).panicked = true) := by
  have hne := nonblank_trim_ne hurl
  obtain ⟨body, evs, he, hevs, _, _⟩ := encodeBody_ok cb.Payload henc
  refine ⟨{ Method := "POST", URL := TrimSpace cb.URL,
            Header := if cb.Payload.isStructured then [("Content-Type", "application/json")]
                      else [],
            Body := body, ctx := ctx }, rfl, rfl, ?_, ?_, ?_, ?_, ?_, ?_, ?_⟩
  · rw [Do_dispatch_handed env cb ctx w body _ evs hne he hparse, hevs]
    simp
  · exact (Do_override_calls env cb ctx w rt body _ evs _ hrt hne he hparse rfl).2.1
  · exact (Do_override_calls env cb ctx w rt body _ evs _ hrt hne he hparse rfl).2.2
  · exact (Do_override_calls env cb ctx w rt body _ evs _ hrt hne he hparse rfl).1
  · intro r hr hnf
    exact Do_override_response env cb ctx w rt body _ evs _ r hrt hne he hparse rfl hr hnf
  · intro e hre
    exact Do_override_error env cb ctx w rt body _ evs _ e hrt hne he hparse rfl hre
  · intro hn ht
    exact Do_override_nil env cb ctx w rt body _ evs _ hrt hne he hparse rfl hn ht

/-- C6 as amended, at a `Callback` whose override answers 503: the response
is returned with no error and the override has been called once. -/
theorem Do_override_client_witness :
    ((overrideCallback.Do quietEnv Context.Background (World.start 0)).resp.map
        fun r => r.StatusCode) = some 503 ∧
    (overrideCallback.Do quietEnv Context.Background (World.start 0)).err = none ∧
    (overrideCalls
      (overrideCallback.Do quietEnv Context.Background (World.start 0)).world.trace).length
      = 1 := by
  obtain ⟨req, _, _, _, _, _, _, h, _, _⟩ :=
    Do_override_client quietEnv overrideCallback Context.Background (World.start 0)
      countingRT rfl ⟨'h', by decide, by decide⟩
      (fun v hv => by
        have : v = testPayload := by injection hv with h; exact h.symm
        subst this
        exact ⟨_, marshal_testPayload⟩)
      rfl
  obtain ⟨h1, h2, h3, _, _⟩ := h _ rfl (followsRedirect_503 _ rfl)
  refine ⟨by rw [h1]; rfl, h2, by rw [h3]; rfl⟩

/-- C8 as stated fails: an override that fails its first call and would
succeed on the second (one failure, within the default client's retry limit
of five) makes `Do` return no response and the failure, wrapped in a
`*url.Error`, after a single call of the override; `Do` does not succeed and
the override does not see two calls. -/
theorem Do_flaky_override_counterexample :
    FailsFirst (flakyRT 1) 1 0 ∧
    (1 : Int) ≤ defaultClient.MaxRetries ∧
    ((flakyCallback 1).Do quietEnv Context.Background (World.start 0)).err
      = some (Error.urlError "Post" "https://orijtech.com" transportFailure) ∧
    ((flakyCallback 1).Do quietEnv Context.Background (World.start 0)).resp = none ∧
    ((overrideCalls
        ((flakyCallback 1).Do quietEnv Context.Background (World.start 0)).world.trace).map
        fun r => (r.Method, r.URL, r.Body))
      = [("POST", "https://orijtech.com", some (stringBytes "this is the payload"))] ∧
    ((flakyCallback 1).Do quietEnv Context.Background (World.start 0)).world.rt = 1 ∧
    ¬ (((flakyCallback 1).Do quietEnv Context.Background (World.start 0)).err = none ∧
        (overrideCalls
          ((flakyCallback 1).Do quietEnv Context.Background (World.start 0)).world.trace).length
          = 1 + 1) := by
  refine ⟨flakyRT_failsFirst 1 1 0 rfl, by decide, by decide, by decide, by decide, by decide,
    by decide⟩

/-- C8 as amended: `Do` does not retry an override. For an override that
fails its first `N` calls and succeeds on the next one, `Do` hands one
request to the `http.Client` over the override and none to the default,
retrying client. For `N ≥ 1` the override is called exactly once and `Do`
returns no response and the first failure (as `sendError` leaves it) wrapped
in a `*url.Error`, the override being left with `N - 1` failures still to
come. For `N = 0`, when
the response is not a redirect the client follows, the override is called
exactly once and `Do` returns its response with no error. The test's
transport, which does not fail but calls its own `RoundTrip` again
`maxTries = N` times, is called once by the client, answers 200 with the
request body, and its log holds `Count: 0` to `Count: N-1` followed by
`Final Write`. -/
theorem Do_override_not_retried {σ ν : Type} (env : Env ν) (ctx : Context) (N : Nat)
    (cb : Callback σ) (w : World σ ν) (rt : RoundTripper σ)
    (cb' : Callback customRT) (w' : World customRT ν) (b : Bytes) (isJSON : Bool)
    (evs : List Event)
    (hrt : cb.RoundTripper = some rt)
    (hurl : ∃ c ∈ cb.URL.data, isSpace c = false)
    (henc : ∀ v, cb.Payload = Payload.other v → ∃ out, marshal false v = .ok out)
    (hparse : env.urlParse (TrimSpace cb.URL) = none)
    (hfail : FailsFirst rt N w.rt)
    (hrt' : cb'.RoundTripper = some customRT.roundTripper)
    (hurl' : ∃ c ∈ cb'.URL.data, isSpace c = false)
    (henc' : encodeBody cb'.Payload = (.ok (some b, isJSON), evs))
    (hparse' : env.urlParse (TrimSpace cb'.URL) = none)
    (hstart : w'.rt = customRT.new N) :
    (∃ req : Request,
      handed (cb.Do env ctx w).world.trace = handed w.trace ++ [req] ∧
      defaultCalls (cb.Do env ctx w).world.trace = defaultCalls w.trace ∧
      (0 < N → ∃ e : Error,
        (rt.RoundTrip (instrument env (withBasicAuth env req)) w.rt).1.2 = some e ∧
        (cb.Do env ctx w).resp = none ∧
        (cb.Do env ctx w).err =
          some (Error.urlError "Post" (env.urlRedacted (TrimSpace cb.URL)) (sendError e)) ∧
        overrideCalls (cb.Do env ctx w).world.trace =
          overrideCalls w.trace ++ [instrument env (withBasicAuth env req)] ∧
        FailsFirst rt (N - 1) (cb.Do env ctx w).world.rt) ∧
      (N = 0 → ∃ r : Response,
        (rt.RoundTrip (instrument env (withBasicAuth env req)) w.rt).1 = (some r, none) ∧
        (followsRedirect r = false →
          (cb.Do env ctx w).resp = some r ∧ (cb.Do env ctx w).err = none ∧
          overrideCalls (cb.Do env ctx w).world.trace =
            overrideCalls w.trace ++ [instrument env (withBasicAuth env req)]))) ∧
    ((∃ req : Request,
        handed (cb'.Do env ctx w').world.trace = handed w'.trace ++ handed evs ++ [req] ∧
        overrideCalls (cb'.Do env ctx w').world.trace =
          overrideCalls w'.trace ++ [instrument env (withBasicAuth env req)]) ∧
      defaultCalls (cb'.Do env ctx w').world.trace = defaultCalls w'.trace ∧
      (cb'.Do env ctx w').err = none ∧
      (cb'.Do env ctx w').resp =
        some { StatusCode := 200, Status := "200 OK", ContentLength := b.length,
               Header := [("X-Log", countLog 0 N ++ "Final Write\n")], Body := b } ∧
      (cb'.Do env ctx w').world.rt.log = countLog 0 N ++ "Final Write\n") := by
  constructor
  · have hne := nonblank_trim_ne hurl
    obtain ⟨body, evs0, he, hevs, _, _⟩ := encodeBody_ok cb.Payload henc
    refine ⟨{ Method := "POST", URL := TrimSpace cb.URL,
              Header := if cb.Payload.isStructured then [("Content-Type", "application/json")]
                        else [],
              Body := body, ctx := ctx }, ?_, ?_, ?_, ?_⟩
    · rw [Do_dispatch_handed env cb ctx w body _ evs0 hne he hparse, hevs]
      simp
    · exact (Do_override_calls env cb ctx w rt body _ evs0 _ hrt hne he hparse rfl).2.1
    · intro hpos
      cases N with
      | zero => omega
      | succ n =>
        have hf := hfail (instrument env (withBasicAuth env
          { Method := "POST", URL := TrimSpace cb.URL,
            Header := if cb.Payload.isStructured then [("Content-Type", "application/json")]
                      else [],
            Body := body, ctx := ctx }))
        obtain ⟨e, hre⟩ := Option.ne_none_iff_exists'.mp hf.1
        obtain ⟨h1, h2, h3, h4, _⟩ :=
          Do_override_error env cb ctx w rt body _ evs0 _ e hrt hne he hparse rfl hre
        refine ⟨e, hre, h1, h2, h3, ?_⟩
        rw [h4]
        exact hf.2
    · intro h0
      subst h0
      have hf := hfail (instrument env (withBasicAuth env
        { Method := "POST", URL := TrimSpace cb.URL,
          Header := if cb.Payload.isStructured then [("Content-Type", "application/json")]
                    else [],
          Body := body, ctx := ctx }))
      obtain ⟨r, hrr⟩ := Option.ne_none_iff_exists'.mp hf.2
      have hpair : (rt.RoundTrip (instrument env (withBasicAuth env
          { Method := "POST", URL := TrimSpace cb.URL,
            Header := if cb.Payload.isStructured then [("Content-Type", "application/json")]
                      else [],
            Body := body, ctx := ctx })) w.rt).1 = (some r, none) :=
        Prod.ext hrr hf.1
      refine ⟨r, hpair, ?_⟩
      intro hnf
      obtain ⟨h1, h2, h3, _, _⟩ :=
        Do_override_response env cb ctx w rt body _ evs0 _ r hrt hne he hparse rfl hpair hnf
      exact ⟨h1, h2, h3⟩
  · have hne := nonblank_trim_ne hurl'
    have hR := fun req => customRT_RoundTrip_eq N 0 req (customRT.new N) rfl
      (by simp [customRT.new])
    have hpair : (customRT.roundTripper.RoundTrip (instrument env (withBasicAuth env
        { Method := "POST", URL := TrimSpace cb'.URL,
          Header := if isJSON then [("Content-Type", "application/json")] else [],
          Body := some b, ctx := ctx })) w'.rt).1 =
        (some { StatusCode := 200, Status := "200 OK", ContentLength := b.length,
                Header := [("X-Log", countLog 0 N ++ "Final Write\n")], Body := b }, none) := by
      rw [hstart]
      simp only [customRT.roundTripper, hR, instrument_Body]
      simp [customRT.new]
    have hstate : (customRT.roundTripper.RoundTrip (instrument env (withBasicAuth env
        { Method := "POST", URL := TrimSpace cb'.URL,
          Header := if isJSON then [("Content-Type", "application/json")] else [],
          Body := some b, ctx := ctx })) w'.rt).2.log = countLog 0 N ++ "Final Write\n" := by
      rw [hstart]
      simp only [customRT.roundTripper, hR]
      simp [customRT.new]
    obtain ⟨h1, h2, h3, h4, _⟩ :=
      Do_override_response env cb' ctx w' customRT.roundTripper (some b) isJSON evs _ _
        hrt' hne henc' hparse' rfl hpair (followsRedirect_200 _ rfl)
    refine ⟨⟨_, Do_dispatch_handed env cb' ctx w' (some b) isJSON evs hne henc' hparse', h3⟩,
      (Do_override_calls env cb' ctx w' customRT.roundTripper (some b) isJSON evs _
        hrt' hne henc' hparse' rfl).2.1, h2, h1, ?_⟩
    rw [h4]
    exact hstate

/-- C8 as amended, at an override failing three times and at the second test
case (`retries` 3): no response from the first, and from the second the log
`Count: 0`, `Count: 1`, `Count: 2`, `Final Write` in the header `X-Log`. -/
theorem Do_override_not_retried_witness :
    ((flakyCallback 3).Do quietEnv Context.Background (World.start 0)).resp = none ∧
    ((retryCallback.Do quietEnv Context.Background (World.start (customRT.new 3))).resp.map
        fun r => (r.StatusCode, r.Header.Get "X-Log", r.Body)) =
      some (200, "Count: 0\nCount: 1\nCount: 2\nFinal Write\n",
        stringBytes "this is the payload") := by
  have h := Do_override_not_retried quietEnv Context.Background 3
    (flakyCallback 3) (World.start 0) (flakyRT 3)
    retryCallback (World.start (customRT.new 3)) (stringBytes "this is the payload") false []
    rfl ⟨'h', by decide, by decide⟩ (fun v hv => by cases hv) rfl
    (flakyRT_failsFirst 3 3 0 rfl)
    rfl ⟨'h', by decide, by decide⟩ rfl rfl rfl
  obtain ⟨⟨_, _, _, h3, _⟩, _, _, _, h4, _⟩ := h
  obtain ⟨_, _, h5, _⟩ := h3 (by decide)
  refine ⟨h5, ?_⟩
  rw [h4]
  decide
/-! ## UTF-8: decoding what was encoded -/

theorem char_valid (c : Char) :
    c.toNat < 0xD800 ∨ (0xDFFF < c.toNat ∧ c.toNat < 0x110000) := by
  have h := c.valid
  simpa [UInt32.isValidChar, Nat.isValidChar, Char.toNat] using h

theorem byte_toNat (n : Nat) (h : n < 256) : (UInt8.ofNat n).toNat = n :=
  UInt8.toNat_ofNat_of_lt h

theorem decodeRune_encodeRune (c : Char) (rest : Bytes) :
    decodeRune (encodeRune c ++ rest) = some (c, rest) := by
  have hv := char_valid c
  have hc := Char.ofNat_toNat c
  unfold encodeRune
  by_cases h1 : c.toNat ≤ 0x7F
  · have e0 := byte_toNat c.toNat (by omega)
    have g0 : c.toNat < 0x80 := by omega
    simp only [h1, if_true, decodeRune, List.cons_append, List.nil_append, e0, g0, hc]
  · by_cases h2 : c.toNat ≤ 0x7FF
    · have e0 := byte_toNat (0xC0 + c.toNat / 64) (by omega)
      have e1 := byte_toNat (0x80 + c.toNat % 64) (by omega)
      have hval : (0xC0 + c.toNat / 64 - 0xC0) * 64 + (0x80 + c.toNat % 64 - 0x80) = c.toNat := by
        omega
      have g0 : ¬ (0xC0 + c.toNat / 64 < 0x80) := by omega
      have g1 : 0xC2 ≤ 0xC0 + c.toNat / 64 ∧ 0xC0 + c.toNat / 64 < 0xE0 := by omega
      have g2 : 0x80 ≤ 0x80 + c.toNat % 64 ∧ 0x80 + c.toNat % 64 < 0xC0 := by omega
      simp only [h1, h2, if_true, if_false, decodeRune, List.cons_append, List.nil_append,
        e0, e1, hval, hc, g0, g1, g2, and_self]
    · by_cases h3 : c.toNat ≤ 0xFFFF
      · have e0 := byte_toNat (0xE0 + c.toNat / 4096) (by omega)
        have e1 := byte_toNat (0x80 + c.toNat / 64 % 64) (by omega)
        have e2 := byte_toNat (0x80 + c.toNat % 64) (by omega)
        have hval : (0xE0 + c.toNat / 4096 - 0xE0) * 4096 + (0x80 + c.toNat / 64 % 64 - 0x80) * 64
            + (0x80 + c.toNat % 64 - 0x80) = c.toNat := by omega
        have g0 : ¬ (0xE0 + c.toNat / 4096 < 0x80) := by omega
        have g1 : ¬ (0xC2 ≤ 0xE0 + c.toNat / 4096 ∧ 0xE0 + c.toNat / 4096 < 0xE0) := by omega
        have g2 : 0xE0 ≤ 0xE0 + c.toNat / 4096 ∧ 0xE0 + c.toNat / 4096 < 0xF0 := by omega
        have g3 : (if 0xE0 + c.toNat / 4096 = 0xE0 then 0xA0 else 0x80) ≤ 0x80 + c.toNat / 64 % 64 ∧
            (0x80 + c.toNat / 64 % 64 < if 0xE0 + c.toNat / 4096 = 0xED then 0xA0 else 0xC0) ∧
            0x80 ≤ 0x80 + c.toNat % 64 ∧ 0x80 + c.toNat % 64 < 0xC0 := by
          refine ⟨?_, ?_, by omega, by omega⟩
          · split <;> omega
          · split <;> omega
        simp only [h1, h2, h3, if_true, if_false, decodeRune, List.cons_append, List.nil_append,
          e0, e1, e2, hval, hc, g0, g1, g2, g3, and_self]
      · have e0 := byte_toNat (0xF0 + c.toNat / 262144) (by omega)
        have e1 := byte_toNat (0x80 + c.toNat / 4096 % 64) (by omega)
        have e2 := byte_toNat (0x80 + c.toNat / 64 % 64) (by omega)
        have e3 := byte_toNat (0x80 + c.toNat % 64) (by omega)
        have hval : (0xF0 + c.toNat / 262144 - 0xF0) * 262144
            + (0x80 + c.toNat / 4096 % 64 - 0x80) * 4096
            + (0x80 + c.toNat / 64 % 64 - 0x80) * 64
            + (0x80 + c.toNat % 64 - 0x80) = c.toNat := by omega
        have g0 : ¬ (0xF0 + c.toNat / 262144 < 0x80) := by omega
        have g1 : ¬ (0xC2 ≤ 0xF0 + c.toNat / 262144 ∧ 0xF0 + c.toNat / 262144 < 0xE0) := by omega
        have g2 : ¬ (0xE0 ≤ 0xF0 + c.toNat / 262144 ∧ 0xF0 + c.toNat / 262144 < 0xF0) := by omega
        have g3 : 0xF0 ≤ 0xF0 + c.toNat / 262144 ∧ 0xF0 + c.toNat / 262144 < 0xF5 := by omega
        have g4 : (if 0xF0 + c.toNat / 262144 = 0xF0 then 0x90 else 0x80)
              ≤ 0x80 + c.toNat / 4096 % 64 ∧
            (0x80 + c.toNat / 4096 % 64 < if 0xF0 + c.toNat / 262144 = 0xF4 then 0x90 else 0xC0) ∧
            0x80 ≤ 0x80 + c.toNat / 64 % 64 ∧ 0x80 + c.toNat / 64 % 64 < 0xC0 ∧
            0x80 ≤ 0x80 + c.toNat % 64 ∧ 0x80 + c.toNat % 64 < 0xC0 := by
          refine ⟨?_, ?_, by omega, by omega, by omega, by omega⟩
          · split <;> omega
          · split <;> omega
        simp only [h1, h2, h3, if_true, if_false, decodeRune, List.cons_append, List.nil_append,
          e0, e1, e2, e3, hval, hc, g0, g1, g2, g3, g4, and_self]

theorem encodeRune_length_pos (c : Char) : 0 < (encodeRune c).length := by
  simp only [encodeRune]
  split_ifs <;> simp

theorem decodeRunesAux_encodeRunes (cs : List Char) :
    ∀ fuel, cs.length ≤ fuel → decodeRunesAux fuel (encodeRunes cs) = cs := by
  induction cs with
  | nil =>
    intro fuel _
    cases fuel <;> simp [decodeRunesAux, encodeRunes, decodeRune]
  | cons c cs ih =>
    intro fuel hf
    cases fuel with
    | zero => simp at hf
    | succ fuel =>
      simp only [decodeRunesAux, encodeRunes, decodeRune_encodeRune]
      rw [ih fuel (by simpa using hf)]

theorem encodeRunes_length (cs : List Char) : cs.length ≤ (encodeRunes cs).length := by
  induction cs with
  | nil => simp [encodeRunes]
  | cons c cs ih =>
    have := encodeRune_length_pos c
    simp [encodeRunes]
    omega

/-- Decoding the UTF-8 encoding of a sequence of code points gives it back. -/
theorem decodeRunes_encodeRunes (cs : List Char) : decodeRunes (encodeRunes cs) = cs :=
  decodeRunesAux_encodeRunes cs _ (encodeRunes_length cs)

/-! ## Numbers: reading back what was formatted -/

theorem digitChar_toNat (d : Nat) (h : d < 10) : (digitChar d).toNat = 48 + d := by
  interval_cases d <;> rfl

theorem parseDigits_formatUintAux (rest : List Char) :
    ∀ (fuel u : Nat) (acc : List Char), u < fuel →
      parseDigits (formatUintAux fuel u acc ++ rest) 0 = parseDigits (acc ++ rest) u := by
  intro fuel
  induction fuel with
  | zero => intro u acc h; omega
  | succ fuel ih =>
    intro u acc h
    unfold formatUintAux
    by_cases h10 : u < 10
    · have hd := digitChar_toNat u h10
      have hr : 48 ≤ 48 + u ∧ 48 + u ≤ 57 := by omega
      simp only [h10, if_true, List.cons_append, parseDigits, hd, hr, and_self]
      congr 1
      omega
    · have hd := digitChar_toNat (u % 10) (by omega)
      simp only [h10, if_false]
      rw [ih (u / 10) _ (by omega)]
      simp only [List.cons_append, parseDigits, hd]
      have : 48 ≤ 48 + u % 10 ∧ 48 + u % 10 ≤ 57 := by omega
      simp only [this, and_self, if_true]
      congr 1
      omega

theorem startsWithDigit_formatUintAux (rest : List Char) :
    ∀ (fuel u : Nat) (acc : List Char), u < fuel →
      startsWithDigit (formatUintAux fuel u acc ++ rest) = true := by
  intro fuel
  induction fuel with
  | zero => intro u acc h; omega
  | succ fuel ih =>
    intro u acc h
    unfold formatUintAux
    by_cases h10 : u < 10
    · have hd := digitChar_toNat u h10
      simp [h10, startsWithDigit, hd]
      omega
    · simp only [h10, if_false]
      exact ih (u / 10) _ (by omega)

theorem parseDigits_stop (rest : List Char) (a : Nat) (h : startsWithDigit rest = false) :
    parseDigits rest a = (a, rest) := by
  cases rest with
  | nil => rfl
  | cons c t =>
    simp [startsWithDigit] at h
    have : ¬ (48 ≤ c.toNat ∧ c.toNat ≤ 57) := by
      intro hh
      have := h hh.1
      omega
    simp [parseDigits, this]

/-- Reading back a formatted integer. -/
theorem parseNumber_formatInt (i : Int) (rest : List Char) (h : startsWithDigit rest = false) :
    parseNumber (formatInt i ++ rest) = some (i, rest) := by
  have hp := parseDigits_formatUintAux rest (i.natAbs + 1) i.natAbs [] (by omega)
  have hs := startsWithDigit_formatUintAux rest (i.natAbs + 1) i.natAbs [] (by omega)
  have hstop := parseDigits_stop rest i.natAbs h
  simp only [List.nil_append] at hp
  unfold formatInt
  by_cases hneg : i < 0
  · have habs : (i.natAbs : Int) = -i := by omega
    simp only [hneg, if_true, List.cons_append, parseNumber, formatUint, hs, hp, hstop, habs]
    simp
  · simp only [hneg, if_false, formatUint]
    have hne : ∃ c t, formatUintAux (i.natAbs + 1) i.natAbs [] ++ rest = c :: t := by
      cases hc : formatUintAux (i.natAbs + 1) i.natAbs [] ++ rest with
      | nil => rw [hc] at hs; simp [startsWithDigit] at hs
      | cons c t => exact ⟨c, t, rfl⟩
    obtain ⟨c, t, hct⟩ := hne
    have hcd : c ≠ '-' := by
      intro hc
      rw [hct, hc] at hs
      simp [startsWithDigit] at hs
    rw [hct] at hs hp
    rw [hct]
    have habs : (i.natAbs : Int) = i := by omega
    simp only [parseNumber, hcd, if_false, hs, hp, hstop, if_true, habs]

/-! ## String literals: reading back what was escaped -/

theorem formatInt_head (i : Int) :
    ∃ c t, formatInt i = c :: t ∧ (c = '-' ∨ (48 ≤ c.toNat ∧ c.toNat ≤ 57)) := by
  have hs := startsWithDigit_formatUintAux [] (i.natAbs + 1) i.natAbs [] (by omega)
  unfold formatInt
  by_cases hneg : i < 0
  · refine ⟨'-', formatUint i.natAbs, ?_, Or.inl rfl⟩
    simp [hneg]
  · simp only [hneg, if_false, formatUint]
    cases hc : formatUintAux (i.natAbs + 1) i.natAbs [] with
    | nil => rw [hc] at hs; simp [startsWithDigit] at hs
    | cons c t =>
      rw [hc] at hs
      simp [startsWithDigit] at hs
      exact ⟨c, t, rfl, Or.inr hs⟩

theorem char_eq_of_toNat {c : Char} {n : Nat} (h : c.toNat = n) : c = Char.ofNat n := by
  rw [← h, Char.ofNat_toNat]

theorem char_ne_of_toNat_ne {c d : Char} (h : c.toNat ≠ d.toNat) : c ≠ d := by
  intro hcd
  exact h (by rw [hcd])

theorem parseStringBody_plain (c : Char) (tail : List Char)
    (h1 : c.toNat ≠ 34) (h2 : c.toNat ≠ 92) (h3 : 0x20 ≤ c.toNat) :
    parseStringBody (c :: tail) = (parseStringBody tail).map (fun p => (c :: p.1, p.2)) := by
  have hq : c ≠ '"' := char_ne_of_toNat_ne h1
  have hb : c ≠ '\\' := char_ne_of_toNat_ne h2
  have hl : ¬ c.toNat < 0x20 := by omega
  rw [parseStringBody.eq_def]
  simp only [hq, hb, hl, if_false]
  cases parseStringBody tail <;> rfl

theorem parseStringBody_short (e ch : Char) (tail : List Char)
    (he : unescape e = some ch) (hu : e ≠ 'u') :
    parseStringBody ('\\' :: e :: tail) = (parseStringBody tail).map (fun p => (ch :: p.1, p.2)) := by
  rw [parseStringBody.eq_def]
  have h1 : ('\\' : Char) ≠ '"' := by decide
  simp only [h1, if_false, if_true, hu, he]
  cases parseStringBody tail <;> rfl

theorem parseStringBody_unicode (h1 h2 h3 h4 : Char) (a b c d : Nat) (tail : List Char)
    (e1 : hexVal h1 = some a) (e2 : hexVal h2 = some b) (e3 : hexVal h3 = some c)
    (e4 : hexVal h4 = some d) :
    parseStringBody ('\\' :: 'u' :: h1 :: h2 :: h3 :: h4 :: tail) =
      (parseStringBody tail).map (fun p => (escapedRune a b c d :: p.1, p.2)) := by
  rw [parseStringBody.eq_def]
  have hq : ('\\' : Char) ≠ '"' := by decide
  simp only [hq, if_false, if_true, e1, e2, e3, e4]
  cases parseStringBody tail <;> rfl

theorem hexVal_hexChar (d : Nat) (h : d < 16) : hexVal (hexChar d) = some d := by
  interval_cases d <;> rfl

theorem escapedRune_low (n : Nat) (h : n < 0x80) :
    escapedRune 0 0 (n / 16) (n % 16) = Char.ofNat n := by
  unfold escapedRune
  have : ((0 * 16 + 0) * 16 + n / 16) * 16 + n % 16 = n := by omega
  simp only [this]
  have : ¬ (0xD800 ≤ n ∧ n ≤ 0xDFFF) := by omega
  simp only [this, if_false]

/-- Reading back one escaped code point of a string literal. -/
theorem parseStringBody_escapeRune (esc : Bool) (c : Char) (tail : List Char) :
    parseStringBody (escapeRune esc c ++ tail) =
      (parseStringBody tail).map (fun p => (c :: p.1, p.2)) := by
  have hc := Char.ofNat_toNat c
  have hu : ∀ n, c.toNat = n → n < 0x80 →
      parseStringBody ('\\' :: 'u' :: '0' :: '0' :: hexChar (n / 16) :: hexChar (n % 16) :: tail) =
        (parseStringBody tail).map (fun p => (c :: p.1, p.2)) := by
    intro n hn hlt
    rw [parseStringBody_unicode '0' '0' _ _ 0 0 (n / 16) (n % 16) tail rfl rfl
      (hexVal_hexChar _ (by omega)) (hexVal_hexChar _ (by omega)), escapedRune_low n hlt,
      ← hn, hc]
  unfold escapeRune
  simp only []
  by_cases hb : c.toNat < 0x80
  · simp only [hb, if_true]
    by_cases hq : c.toNat = 34
    · have := char_eq_of_toNat hq
      subst this
      cases esc <;> exact parseStringBody_short _ _ tail rfl (by decide)
    · by_cases hbs : c.toNat = 92
      · have := char_eq_of_toNat hbs
        subst this
        cases esc <;> exact parseStringBody_short _ _ tail rfl (by decide)
      · have hq' : c ≠ '"' := char_ne_of_toNat_ne hq
        have hbs' : c ≠ '\\' := char_ne_of_toNat_ne hbs
        have eq' : (c == '"') = false := by simpa using hq'
        have ebs' : (c == '\\') = false := by simpa using hbs'
        by_cases hlow : c.toNat < 0x20
        · have hnl : ¬ (0x20 ≤ c.toNat) := by omega
          simp only [hnl, decide_False, Bool.false_and, Bool.false_eq_true, if_false, beq_iff_eq,
            eq', ebs', Bool.or_self, decide_eq_true_eq]
          by_cases h8 : c.toNat = 8
          · have := char_eq_of_toNat h8
            subst this
            exact parseStringBody_short _ _ tail rfl (by decide)
          · by_cases h12 : c.toNat = 12
            · have := char_eq_of_toNat h12
              subst this
              exact parseStringBody_short _ _ tail rfl (by decide)
            · by_cases h10 : c.toNat = 10
              · have := char_eq_of_toNat h10
                subst this
                exact parseStringBody_short _ _ tail rfl (by decide)
              · by_cases h13 : c.toNat = 13
                · have := char_eq_of_toNat h13
                  subst this
                  exact parseStringBody_short _ _ tail rfl (by decide)
                · by_cases h9 : c.toNat = 9
                  · have := char_eq_of_toNat h9
                    subst this
                    exact parseStringBody_short _ _ tail rfl (by decide)
                  · simp only [h8, h12, h10, h13, h9, if_false]
                    exact hu _ rfl hb
        · have hge : 0x20 ≤ c.toNat := by omega
          by_cases hhtml : (esc && (c == '<' || c == '>' || c == '&')) = true
          · have h8 : c.toNat ≠ 8 := by omega
            have h12 : c.toNat ≠ 12 := by omega
            have h10 : c.toNat ≠ 10 := by omega
            have h13 : c.toNat ≠ 13 := by omega
            have h9 : c.toNat ≠ 9 := by omega
            simp only [hhtml, Bool.not_true, Bool.and_false, Bool.false_eq_true, if_false,
              beq_iff_eq, eq', ebs', Bool.or_self, decide_eq_true_eq, h8, h12, h10, h13, h9]
            exact hu _ rfl hb
          · have hh : (esc && (c == '<' || c == '>' || c == '&')) = false := by
              simpa using hhtml
            have hcond : (decide (0x20 ≤ c.toNat) && c != '"' && c != '\\'
                && !(esc && (c == '<' || c == '>' || c == '&'))) = true := by
              rw [hh]
              simp [hge, hq', hbs']
            simp only [hcond, if_true]
            exact parseStringBody_plain c tail hq hbs hge
  · simp only [hb, if_false]
    by_cases hls : c.toNat = 0x2028
    · have := char_eq_of_toNat hls
      subst this
      exact parseStringBody_unicode '2' '0' '2' '8' 2 0 2 8 tail rfl rfl rfl rfl
    · by_cases hps : c.toNat = 0x2029
      · have := char_eq_of_toNat hps
        subst this
        exact parseStringBody_unicode '2' '0' '2' '9' 2 0 2 9 tail rfl rfl rfl rfl
      · have e1 : (c.toNat == 0x2028) = false := by simpa using hls
        have e2 : (c.toNat == 0x2029) = false := by simpa using hps
        simp only [e1, e2, Bool.or_self, Bool.false_eq_true, if_false]
        exact parseStringBody_plain c tail (by omega) (by omega) (by omega)

/-- Reading back the body of a string literal. -/
theorem parseStringBody_escapeRunes (esc : Bool) (cs rest : List Char) :
    parseStringBody (escapeRunes esc (cs.map Rune.valid) ++ '"' :: rest) = some (cs, rest) := by
  induction cs with
  | nil =>
    simp only [List.map_nil, escapeRunes, List.nil_append]
    rw [parseStringBody.eq_def]
    simp
  | cons c cs ih =>
    simp only [List.map_cons, escapeRunes, escapeStep, List.append_assoc]
    rw [parseStringBody_escapeRune, ih]
    rfl

/-- A Go string that is valid UTF-8 is a sequence of code points. -/
theorem GoString.valid_eq_map (s : GoString) (h : s.isValidUTF8 = true) :
    ∃ cs : List Char, s = cs.map Rune.valid := by
  induction s with
  | nil => exact ⟨[], rfl⟩
  | cons r rs ih =>
    simp only [GoString.isValidUTF8, List.all_cons, Bool.and_eq_true] at h
    obtain ⟨cs, hcs⟩ := ih h.2
    cases r with
    | valid c => exact ⟨c :: cs, by rw [hcs]; rfl⟩
    | invalid b => simp [Rune.isValid] at h

/-- Reading back a string literal after its opening quote. -/
theorem parseStringBody_appendString (esc : Bool) (cs : List Char) (rest : List Char) :
    ∃ t, appendString esc (cs.map Rune.valid) ++ rest = '"' :: t ∧
      parseStringBody t = some (cs, rest) := by
  refine ⟨escapeRunes esc (cs.map Rune.valid) ++ '"' :: rest, ?_,
    parseStringBody_escapeRunes esc cs rest⟩
  simp [appendString]

/-! ## Values: reading back what was encoded -/

theorem skipSpace_cons (c : Char) (t : List Char) (h : isJSONSpace c = false) :
    skipSpace (c :: t) = c :: t := by
  simp [skipSpace, List.dropWhile, h]

/-- The first character of a formatted integer is a minus sign or a digit;
it is not white space and starts no other kind of value. -/
theorem numHead_facts (c : Char) (h : c = '-' ∨ (48 ≤ c.toNat ∧ c.toNat ≤ 57)) :
    isJSONSpace c = false ∧ c ≠ 'n' ∧ c ≠ 't' ∧ c ≠ 'f' ∧ c ≠ '"' ∧ c ≠ '[' ∧ c ≠ '{'
      ∧ c ≠ ']' ∧ c ≠ '}' := by
  rcases h with h | h
  · subst h
    decide
  · have hne : ∀ d : Char, (d.toNat < 48 ∨ 57 < d.toNat) → c ≠ d := by
      intro d hd hcd
      subst hcd
      omega
    have hs : isJSONSpace c = false := by
      have h1 := hne ' ' (by decide)
      have h2 := hne '\t' (by decide)
      have h3 := hne '\r' (by decide)
      have h4 := hne '\n' (by decide)
      simp [isJSONSpace, h1, h2, h3, h4]
    exact ⟨hs, hne _ (by decide), hne _ (by decide), hne _ (by decide), hne _ (by decide),
      hne _ (by decide), hne _ (by decide), hne _ (by decide), hne _ (by decide)⟩

/-- An encoded value starts with a character that is not white space and
closes no array or object. -/
theorem marshal_head (esc : Bool) (v : GoValue) (out : List Char)
    (h : marshal esc v = .ok out) :
    ∃ c t, out = c :: t ∧ isJSONSpace c = false ∧ c ≠ ']' ∧ c ≠ '}' := by
  cases v with
  | null =>
    simp only [marshal, Except.ok.injEq] at h
    subst h
    exact ⟨'n', _, rfl, by decide, by decide, by decide⟩
  | nilSlice =>
    simp only [marshal, Except.ok.injEq] at h
    subst h
    exact ⟨'n', _, rfl, by decide, by decide, by decide⟩
  | nilMap =>
    simp only [marshal, Except.ok.injEq] at h
    subst h
    exact ⟨'n', _, rfl, by decide, by decide, by decide⟩
  | bool b =>
    cases b <;> simp only [marshal, Except.ok.injEq] at h <;> subst h
    · exact ⟨'f', _, rfl, by decide, by decide, by decide⟩
    · exact ⟨'t', _, rfl, by decide, by decide, by decide⟩
  | int i =>
    simp only [marshal, Except.ok.injEq] at h
    subst h
    obtain ⟨c, t, hct, hc⟩ := formatInt_head i
    have hf := numHead_facts c hc
    exact ⟨c, t, hct, hf.1, hf.2.2.2.2.2.2.2.1, hf.2.2.2.2.2.2.2.2⟩
  | str s =>
    simp only [marshal, Except.ok.injEq] at h
    subst h
    exact ⟨'"', _, rfl, by decide, by decide, by decide⟩
  | arr xs =>
    simp only [marshal] at h
    cases hb : marshalElems esc xs with
    | error e => rw [hb] at h; simp at h
    | ok b =>
      rw [hb] at h
      simp only [Except.ok.injEq] at h
      subst h
      exact ⟨'[', _, rfl, by decide, by decide, by decide⟩
  | obj fs =>
    simp only [marshal] at h
    cases hb : marshalFields esc fs with
    | error e => rw [hb] at h; simp at h
    | ok b =>
      rw [hb] at h
      simp only [Except.ok.injEq] at h
      subst h
      exact ⟨'{', _, rfl, by decide, by decide, by decide⟩
  | unsupported => simp [marshal] at h


theorem parseValue_null (fuel : Nat) (rest : List Char) :
    parseValue (fuel + 1) ("null".data ++ rest) = some (.null, rest) := by
  show parseValue (fuel + 1) ('n' :: 'u' :: 'l' :: 'l' :: rest) = _
  rw [parseValue, skipSpace_cons _ _ (by decide)]
  simp

theorem parseValue_true (fuel : Nat) (rest : List Char) :
    parseValue (fuel + 1) ("true".data ++ rest) = some (.bool true, rest) := by
  show parseValue (fuel + 1) ('t' :: 'r' :: 'u' :: 'e' :: rest) = _
  rw [parseValue, skipSpace_cons _ _ (by decide)]
  simp

theorem parseValue_false (fuel : Nat) (rest : List Char) :
    parseValue (fuel + 1) ("false".data ++ rest) = some (.bool false, rest) := by
  show parseValue (fuel + 1) ('f' :: 'a' :: 'l' :: 's' :: 'e' :: rest) = _
  rw [parseValue, skipSpace_cons _ _ (by decide)]
  simp

theorem parseValue_int (fuel : Nat) (i : Int) (rest : List Char)
    (h : startsWithDigit rest = false) :
    parseValue (fuel + 1) (formatInt i ++ rest) = some (.int i, rest) := by
  obtain ⟨c, t, hct, hc⟩ := formatInt_head i
  have hf := numHead_facts c hc
  have hp := parseNumber_formatInt i rest h
  rw [hct] at hp ⊢
  rw [List.cons_append] at hp ⊢
  rw [parseValue, skipSpace_cons _ _ hf.1]
  simp only [hf.2.1, hf.2.2.1, hf.2.2.2.1, hf.2.2.2.2.1, hf.2.2.2.2.2.1, hf.2.2.2.2.2.2.1,
    if_false, hp]

theorem parseValue_str (fuel : Nat) (esc : Bool) (cs : List Char) (rest : List Char) :
    parseValue (fuel + 1) (appendString esc (cs.map Rune.valid) ++ rest) =
      some (.str (cs.map Rune.valid), rest) := by
  obtain ⟨t, ht, hp⟩ := parseStringBody_appendString esc cs rest
  rw [ht, parseValue, skipSpace_cons _ _ (by decide)]
  simp [hp]


theorem marshalElems_head (esc : Bool) (v : GoValue) (vs : GoValues) (b : List Char)
    (h : marshalElems esc (.cons v vs) = .ok b) :
    ∃ c t, b = c :: t ∧ isJSONSpace c = false ∧ c ≠ ']' ∧ c ≠ '}' := by
  simp only [marshalElems] at h
  cases ha : marshal esc v with
  | error e => rw [ha] at h; simp at h
  | ok a =>
    rw [ha] at h
    obtain ⟨c, t, hct, hrest⟩ := marshal_head esc v a ha
    cases vs with
    | nil =>
      simp only [Except.ok.injEq] at h
      subst h
      exact ⟨c, t, hct, hrest⟩
    | cons v' vs' =>
      simp only at h
      cases hb : marshalElems esc (.cons v' vs') with
      | error e => rw [hb] at h; simp at h
      | ok b' =>
        rw [hb] at h
        simp only [Except.ok.injEq] at h
        subst h
        exact ⟨c, t ++ ',' :: b', by simp [hct], hrest⟩

theorem marshalFields_head (esc : Bool) (k : GoString) (v : GoValue) (fs : GoFields)
    (b : List Char) (h : marshalFields esc (.cons k v fs) = .ok b) :
    ∃ t, b = '"' :: t := by
  simp only [marshalFields] at h
  cases ha : marshal esc v with
  | error e => rw [ha] at h; simp at h
  | ok a =>
    rw [ha] at h
    cases fs with
    | nil =>
      simp only [Except.ok.injEq] at h
      subst h
      exact ⟨_, by simp [appendString]; rfl⟩
    | cons k' v' fs' =>
      simp only at h
      cases hb : marshalFields esc (.cons k' v' fs') with
      | error e => rw [hb] at h; simp at h
      | ok b' =>
        rw [hb] at h
        simp only [Except.ok.injEq] at h
        subst h
        exact ⟨_, by simp [appendString]; rfl⟩

mutual
/-- Parsing the encoding of a value gives the value back and stops right
after it. -/
theorem parseValue_marshal (esc : Bool) : ∀ (v : GoValue) (out rest : List Char) (fuel : Nat),
    v.plain = true →
    marshal esc v = .ok out → out.length + 1 ≤ fuel → startsWithDigit rest = false →
    parseValue fuel (out ++ rest) = some (v, rest)
  | .nilSlice, _, _, _, hp, _, _, _ => by simp [GoValue.plain] at hp
  | .nilMap, _, _, _, hp, _, _, _ => by simp [GoValue.plain] at hp
  | .null, out, rest, fuel, _, h, hf, _ => by
    simp only [marshal, Except.ok.injEq] at h
    subst h
    obtain ⟨f, rfl⟩ : ∃ f, fuel = f + 1 := ⟨fuel - 1, by omega⟩
    exact parseValue_null f rest
  | .bool true, out, rest, fuel, _, h, hf, _ => by
    simp only [marshal, Except.ok.injEq] at h
    subst h
    obtain ⟨f, rfl⟩ : ∃ f, fuel = f + 1 := ⟨fuel - 1, by omega⟩
    exact parseValue_true f rest
  | .bool false, out, rest, fuel, _, h, hf, _ => by
    simp only [marshal, Except.ok.injEq] at h
    subst h
    obtain ⟨f, rfl⟩ : ∃ f, fuel = f + 1 := ⟨fuel - 1, by omega⟩
    exact parseValue_false f rest
  | .int i, out, rest, fuel, _, h, hf, hd => by
    simp only [marshal, Except.ok.injEq] at h
    subst h
    obtain ⟨f, rfl⟩ : ∃ f, fuel = f + 1 := ⟨fuel - 1, by omega⟩
    exact parseValue_int f i rest hd
  | .str s, out, rest, fuel, hp, h, hf, _ => by
    simp only [GoValue.plain] at hp
    obtain ⟨cs, rfl⟩ := GoString.valid_eq_map s hp
    simp only [marshal, Except.ok.injEq] at h
    subst h
    obtain ⟨f, rfl⟩ : ∃ f, fuel = f + 1 := ⟨fuel - 1, by omega⟩
    exact parseValue_str f esc cs rest
  | .unsupported, out, rest, fuel, _, h, _, _ => by
    simp [marshal] at h
  | .arr xs, out, rest, fuel, hp, h, hf, _ => by
    have ihx := parseElems_marshal esc xs
    simp only [GoValue.plain] at hp
    simp only [marshal] at h
    cases hb : marshalElems esc xs with
    | error e => rw [hb] at h; simp at h
    | ok b =>
      rw [hb] at h
      simp only [Except.ok.injEq] at h
      subst h
      obtain ⟨f, rfl⟩ : ∃ f, fuel = f + 1 := ⟨fuel - 1, by omega⟩
      show parseValue (f + 1) ('[' :: ((b ++ [']']) ++ rest)) = _
      rw [parseValue, skipSpace_cons _ _ (by decide)]
      cases xs with
      | nil =>
        simp only [marshalElems, Except.ok.injEq] at hb
        subst hb
        simp [skipSpace_cons _ _ (show isJSONSpace ']' = false by decide)]
      | cons v vs =>
        have ih := ihx b rest f hp (by simp) hb (by simp at hf; omega)
        obtain ⟨c, t, hct, hsp, hc1, _⟩ := marshalElems_head esc v vs b hb
        have e1 : (b ++ [']']) ++ rest = c :: (t ++ ']' :: rest) := by simp [hct]
        have e2 : b ++ ']' :: rest = c :: (t ++ ']' :: rest) := by simp [hct]
        rw [e2] at ih
        simp [e1, skipSpace_cons _ _ hsp, hc1, ih]
  | .obj fs, out, rest, fuel, hp, h, hf, _ => by
    have ihx := parseFields_marshal esc fs
    simp only [GoValue.plain] at hp
    simp only [marshal] at h
    cases hb : marshalFields esc fs with
    | error e => rw [hb] at h; simp at h
    | ok b =>
      rw [hb] at h
      simp only [Except.ok.injEq] at h
      subst h
      obtain ⟨f, rfl⟩ : ∃ f, fuel = f + 1 := ⟨fuel - 1, by omega⟩
      show parseValue (f + 1) ('{' :: ((b ++ ['}']) ++ rest)) = _
      rw [parseValue, skipSpace_cons _ _ (by decide)]
      cases fs with
      | nil =>
        simp only [marshalFields, Except.ok.injEq] at hb
        subst hb
        simp [skipSpace_cons _ _ (show isJSONSpace '}' = false by decide)]
      | cons k v fs' =>
        have ih := ihx b rest f hp (by simp) hb (by simp at hf; omega)
        obtain ⟨t, hct⟩ := marshalFields_head esc k v fs' b hb
        have e1 : (b ++ ['}']) ++ rest = '"' :: (t ++ '}' :: rest) := by simp [hct]
        have e2 : b ++ '}' :: rest = '"' :: (t ++ '}' :: rest) := by simp [hct]
        rw [e2] at ih
        simp [e1, skipSpace_cons _ _ (show isJSONSpace '"' = false by decide), ih]
/-- Parsing the encoded elements of a non-empty array up to its bracket. -/
theorem parseElems_marshal (esc : Bool) : ∀ (xs : GoValues) (out rest : List Char) (fuel : Nat),
    xs.plain = true → xs ≠ .nil → marshalElems esc xs = .ok out → out.length + 2 ≤ fuel →
    parseElems fuel (out ++ ']' :: rest) = some (xs, rest)
  | .nil, _, _, _, _, hne, _, _ => absurd rfl hne
  | .cons v vs, out, rest, fuel, hp, _, h, hf => by
    have ihv := parseValue_marshal esc v
    have ihs := parseElems_marshal esc vs
    simp only [GoValues.plain, Bool.and_eq_true] at hp
    simp only [marshalElems] at h
    cases ha : marshal esc v with
    | error e => rw [ha] at h; simp at h
    | ok a =>
      rw [ha] at h
      obtain ⟨f, rfl⟩ : ∃ f, fuel = f + 1 := ⟨fuel - 1, by omega⟩
      cases vs with
      | nil =>
        simp only [Except.ok.injEq] at h
        subst h
        have ih := ihv a (']' :: rest) f hp.1 ha (by omega) rfl
        rw [parseElems, ih]
        simp [skipSpace_cons _ _ (show isJSONSpace ']' = false by decide)]
      | cons v' vs' =>
        simp only at h
        cases hb : marshalElems esc (.cons v' vs') with
        | error e => rw [hb] at h; simp at h
        | ok b =>
          rw [hb] at h
          simp only [Except.ok.injEq] at h
          subst h
          have ih1 := ihv a (',' :: (b ++ ']' :: rest)) f hp.1 ha (by simp at hf; omega) rfl
          have ih2 := ihs b rest f hp.2 (by simp) hb (by simp at hf; omega)
          have e : (a ++ ',' :: b) ++ ']' :: rest = a ++ ',' :: (b ++ ']' :: rest) := by simp
          rw [e, parseElems, ih1]
          simp [skipSpace_cons _ _ (show isJSONSpace ',' = false by decide), ih2]
/-- Parsing the encoded entries of a non-empty object up to its brace. -/
theorem parseFields_marshal (esc : Bool) : ∀ (fs : GoFields) (out rest : List Char) (fuel : Nat),
    fs.plain = true → fs ≠ .nil → marshalFields esc fs = .ok out → out.length + 2 ≤ fuel →
    parseFields fuel (out ++ '}' :: rest) = some (fs, rest)
  | .nil, _, _, _, _, hne, _, _ => absurd rfl hne
  | .cons k v fs, out, rest, fuel, hp, _, h, hf => by
    have ihv := parseValue_marshal esc v
    have ihs := parseFields_marshal esc fs
    simp only [GoFields.plain, Bool.and_eq_true] at hp
    obtain ⟨cs, hcs⟩ := GoString.valid_eq_map k hp.1.1
    subst hcs
    simp only [marshalFields] at h
    cases ha : marshal esc v with
    | error e => rw [ha] at h; simp at h
    | ok a =>
      rw [ha] at h
      obtain ⟨f, rfl⟩ : ∃ f, fuel = f + 1 := ⟨fuel - 1, by omega⟩
      cases fs with
      | nil =>
        simp only [Except.ok.injEq] at h
        subst h
        have ih := ihv a ('}' :: rest) f hp.1.2 ha (by simp at hf; omega) rfl
        obtain ⟨t, ht, hps⟩ := parseStringBody_appendString esc cs (':' :: (a ++ '}' :: rest))
        have e : (appendString esc (cs.map Rune.valid) ++ ':' :: a) ++ '}' :: rest
            = appendString esc (cs.map Rune.valid) ++ ':' :: (a ++ '}' :: rest) := by simp
        rw [e, ht, parseFields, skipSpace_cons _ _ (by decide)]
        simp [hps, skipSpace_cons _ _ (show isJSONSpace ':' = false by decide), ih,
          skipSpace_cons _ _ (show isJSONSpace '}' = false by decide)]
      | cons k' v' fs' =>
        simp only at h
        cases hb : marshalFields esc (.cons k' v' fs') with
        | error e => rw [hb] at h; simp at h
        | ok b =>
          rw [hb] at h
          simp only [Except.ok.injEq] at h
          subst h
          have ih1 := ihv a (',' :: (b ++ '}' :: rest)) f hp.1.2 ha (by simp at hf; omega) rfl
          have ih2 := ihs b rest f hp.2 (by simp) hb (by simp at hf; omega)
          obtain ⟨t, ht, hps⟩ :=
            parseStringBody_appendString esc cs (':' :: (a ++ ',' :: (b ++ '}' :: rest)))
          have e : (appendString esc (cs.map Rune.valid) ++ ':' :: a ++ ',' :: b) ++ '}' :: rest
              = appendString esc (cs.map Rune.valid) ++ ':' :: (a ++ ',' :: (b ++ '}' :: rest)) := by
            simp
          rw [e, ht, parseFields, skipSpace_cons _ _ (by decide)]
          simp [hps, skipSpace_cons _ _ (show isJSONSpace ':' = false by decide), ih1,
            skipSpace_cons _ _ (show isJSONSpace ',' = false by decide), ih2]
end


theorem encodeRunes_append (a b : List Char) :
    encodeRunes (a ++ b) = encodeRunes a ++ encodeRunes b := by
  induction a with
  | nil => rfl
  | cons c t ih => simp [encodeRunes, ih]

/-- On plain payloads the compact encoding is injective: two plain values
with the same encoding are equal. -/
theorem marshal_injective (esc : Bool) (v v' : GoValue) (out : List Char)
    (hv : v.plain = true) (hv' : v'.plain = true)
    (h : marshal esc v = .ok out) (h' : marshal esc v' = .ok out) : v' = v := by
  have hp := parseValue_marshal esc v out [] (out.length + 1) hv h (by simp) rfl
  have hp' := parseValue_marshal esc v' out [] (out.length + 1) hv' h' (by simp) rfl
  rw [hp] at hp'
  simp only [Option.some.injEq, Prod.mk.injEq, and_true] at hp'
  exact hp'.symm

/-- The bytes of a text determine its code points. -/
theorem encodeRunes_injective (a b : List Char) (h : encodeRunes a = encodeRunes b) : a = b := by
  have := congrArg decodeRunes h
  rwa [decodeRunes_encodeRunes, decodeRunes_encodeRunes] at this

theorem formatUintAux_digits :
    ∀ (fuel u : Nat) (acc : List Char), u < fuel →
      ∃ pre d, formatUintAux fuel u acc = pre ++ d :: acc ∧ 48 ≤ d.toNat ∧ d.toNat ≤ 57 := by
  intro fuel
  induction fuel with
  | zero => intro u acc h; omega
  | succ fuel ih =>
    intro u acc h
    unfold formatUintAux
    by_cases h10 : u < 10
    · have hd := digitChar_toNat u h10
      exact ⟨[], digitChar u, by simp [h10], by omega, by omega⟩
    · simp only [h10, if_false]
      obtain ⟨pre, d, hpre, _, _⟩ := ih (u / 10) (digitChar (u % 10) :: acc) (by omega)
      have hd := digitChar_toNat (u % 10) (by omega)
      exact ⟨pre ++ [d], digitChar (u % 10), by simp [hpre], by omega, by omega⟩

/-- An encoded value ends with an ASCII character other than a newline. -/
theorem marshal_last (esc : Bool) (v : GoValue) (out : List Char)
    (h : marshal esc v = .ok out) :
    ∃ t c, out = t ++ [c] ∧ c.toNat < 0x80 ∧ c.toNat ≠ 10 := by
  cases v with
  | null =>
    simp only [marshal, Except.ok.injEq] at h
    subst h
    exact ⟨['n', 'u', 'l'], 'l', rfl, by decide, by decide⟩
  | nilSlice =>
    simp only [marshal, Except.ok.injEq] at h
    subst h
    exact ⟨['n', 'u', 'l'], 'l', rfl, by decide, by decide⟩
  | nilMap =>
    simp only [marshal, Except.ok.injEq] at h
    subst h
    exact ⟨['n', 'u', 'l'], 'l', rfl, by decide, by decide⟩
  | bool b =>
    cases b <;> simp only [marshal, Except.ok.injEq] at h <;> subst h
    · exact ⟨['f', 'a', 'l', 's'], 'e', rfl, by decide, by decide⟩
    · exact ⟨['t', 'r', 'u'], 'e', rfl, by decide, by decide⟩
  | int i =>
    simp only [marshal, Except.ok.injEq] at h
    subst h
    obtain ⟨pre, d, hpre, h1, h2⟩ := formatUintAux_digits (i.natAbs + 1) i.natAbs [] (by omega)
    unfold formatInt formatUint
    by_cases hneg : i < 0
    · exact ⟨'-' :: pre, d, by simp [hneg, hpre], by omega, by omega⟩
    · exact ⟨pre, d, by simp [hneg, hpre], by omega, by omega⟩
  | str s =>
    simp only [marshal, Except.ok.injEq] at h
    subst h
    exact ⟨'"' :: escapeRunes esc s, '"', by simp [appendString], by decide, by decide⟩
  | arr xs =>
    simp only [marshal] at h
    cases hb : marshalElems esc xs with
    | error e => rw [hb] at h; simp at h
    | ok b =>
      rw [hb] at h
      simp only [Except.ok.injEq] at h
      subst h
      exact ⟨'[' :: b, ']', by simp, by decide, by decide⟩
  | obj fs =>
    simp only [marshal] at h
    cases hb : marshalFields esc fs with
    | error e => rw [hb] at h; simp at h
    | ok b =>
      rw [hb] at h
      simp only [Except.ok.injEq] at h
      subst h
      exact ⟨'{' :: b, '}', by simp, by decide, by decide⟩
  | unsupported => simp [marshal] at h

/-- Stripping the newline the encoder appended leaves the encoding. -/
theorem stripNewline_encoded (esc : Bool) (v : GoValue) (out : List Char)
    (h : marshal esc v = .ok out) :
    stripNewline (encodeRunes out ++ [0x0A]) = encodeRunes out := by
  obtain ⟨t, c, hout, hc, hnl⟩ := marshal_last esc v out h
  subst hout
  have hb : encodeRune c = [UInt8.ofNat c.toNat] := by
    have : c.toNat ≤ 0x7F := by omega
    simp [encodeRune, this]
  have hne : (UInt8.ofNat c.toNat == 0x0A) = false := by
    have h1 := byte_toNat c.toNat (by omega)
    apply beq_false_of_ne
    intro h2
    have := congrArg UInt8.toNat h2
    rw [h1] at this
    exact hnl this
  rw [encodeRunes_append]
  simp only [encodeRunes, hb, List.append_nil]
  simp [stripNewline, List.dropWhile, hne]

/-- C5 as stated fails: the maps `{k: "\xff"}` and `{k: "\xfe"}`, whose
string is one byte that is not valid UTF-8, are different payloads, both
serialize successfully, and both are delivered as the same body
`{"k":"\ufffd"}` and a newline, the encoder writing each invalid byte as
`\ufffd`. No way of deserializing the body yields a value equal to the
payload for both. -/
theorem Do_invalid_string_counterexample :
    badStringPayload ≠ otherBadStringPayload ∧
    marshal false badStringPayload = .ok "\x7b\"k\":\"\\ufffd\"\x7d".data ∧
    marshal false otherBadStringPayload = .ok "\x7b\"k\":\"\\ufffd\"\x7d".data ∧
    handed ((payloadCallback badStringPayload).Do quietEnv Context.Background
        (World.start ())).world.trace =
      [{ Method := "POST", URL := "https://example.com",
         Header := [("Content-Type", "application/json")],
         Body := some (stringBytes "\x7b\"k\":\"\\ufffd\"\x7d" ++ [0x0A]),
         ctx := Context.Background }] ∧
    handed ((payloadCallback otherBadStringPayload).Do quietEnv Context.Background
        (World.start ())).world.trace =
      [{ Method := "POST", URL := "https://example.com",
         Header := [("Content-Type", "application/json")],
         Body := some (stringBytes "\x7b\"k\":\"\\ufffd\"\x7d" ++ [0x0A]),
         ctx := Context.Background }] ∧
    ¬ ∃ deserialize : Bytes → GoValue,
        deserialize (stringBytes "\x7b\"k\":\"\\ufffd\"\x7d" ++ [0x0A]) = badStringPayload ∧
        deserialize (stringBytes "\x7b\"k\":\"\\ufffd\"\x7d" ++ [0x0A]) = otherBadStringPayload := by
  have hne : badStringPayload ≠ otherBadStringPayload := by
    intro h
    simp only [badStringPayload, otherBadStringPayload, GoValue.obj.injEq, GoFields.cons.injEq,
      GoValue.str.injEq, List.cons.injEq, Rune.invalid.injEq, and_true, true_and] at h
    exact absurd h (by decide)
  refine ⟨hne, by decide, by decide, by decide, by decide, ?_⟩
  rintro ⟨d, h1, h2⟩
  exact hne (h1.symm.trans h2)

/-- C5 as amended: for a URL that is not blank and parses and a structured
payload the encoder accepts, the encoder is called once, with the whole
value, and the body of the one request handed to a transport is the compact
encoding of the value (the one in which `<`, `>` and `&` stand for
themselves) followed by one newline; stripping the newline leaves that
encoding, and the request carries the JSON content type. When the payload is
plain (its strings are valid UTF-8 and it holds no nil slice or map), every
plain payload delivered as the same body is equal to it: the body determines
the payload. -/
theorem Do_structured_body_encoding {σ ν : Type} (env : Env ν) (cb : Callback σ)
    (ctx : Context) (w : World σ ν) (v : GoValue) (out : List Char)
    (hurl : ∃ c ∈ cb.URL.data, isSpace c = false)
    (hp : cb.Payload = Payload.other v)
    (hm : marshal false v = .ok out)
    (hparse : env.urlParse (TrimSpace cb.URL) = none) :
    handed (cb.Do env ctx w).world.trace =
      handed w.trace ++
        [{ Method := "POST", URL := TrimSpace cb.URL,
           Header := [("Content-Type", "application/json")],
           Body := some (encodeRunes out ++ [0x0A]), ctx := ctx }] ∧
    encoderCalls (cb.Do env ctx w).world.trace = encoderCalls w.trace ++ [v] ∧
    stripNewline (encodeRunes out ++ [0x0A]) = encodeRunes out ∧
    escapeRune false '<' = ['<'] ∧ escapeRune false '>' = ['>'] ∧
    escapeRune false '&' = ['&'] ∧
    (v.plain = true → ∀ (v' : GoValue) (out' : List Char), v'.plain = true →
      marshal false v' = .ok out' →
      encodeRunes out' ++ [0x0A] = encodeRunes out ++ [0x0A] → v' = v) := by
  have hnl : encodeRunes (out ++ ['\n']) = encodeRunes out ++ [0x0A] := by
    rw [encodeRunes_append]
    rfl
  have henc : encodeBody cb.Payload =
      (.ok (some (encodeRunes out ++ [0x0A]), true), [Event.jsonEncode v]) := by
    rw [hp]
    simp only [encodeBody, Encoder.Encode, Encoder.SetEscapeHTML, hm, hnl, List.nil_append]
  refine ⟨?_, ?_, stripNewline_encoded false v out hm, by decide, by decide, by decide, ?_⟩
  · rw [Do_dispatch_handed env cb ctx w _ true _ (nonblank_trim_ne hurl) henc hparse]
    simp [handed]
  · rw [Do_dispatch_encoderCalls env cb ctx w _ true _ (nonblank_trim_ne hurl) henc hparse]
    simp [encoderCalls]
  · intro hv v' out' hv' hm' hbody
    have hout : out' = out := encodeRunes_injective out' out (List.append_cancel_right hbody)
    subst hout
    exact marshal_injective false v v' out' hv hv' hm hm'

/-- C5 as amended, at the first test case: the map `{a: 12, b: {aa: bb}}` is
delivered as `{"a":12,"b":{"aa":"bb"}}` and a newline, which `stripNewline`
removes. -/
theorem Do_structured_body_encoding_witness :
    handed (overrideCallback.Do quietEnv Context.Background (World.start 0)).world.trace =
      [{ Method := "POST", URL := "https://example.com",
         Header := [("Content-Type", "application/json")],
         Body := some (stringBytes "\x7b\"a\":12,\"b\":\x7b\"aa\":\"bb\"\x7d\x7d" ++ [0x0A]),
         ctx := Context.Background }] ∧
    stripNewline (stringBytes "\x7b\"a\":12,\"b\":\x7b\"aa\":\"bb\"\x7d\x7d" ++ [0x0A])
      = stringBytes "\x7b\"a\":12,\"b\":\x7b\"aa\":\"bb\"\x7d\x7d" ∧
    testPayload.plain = true := by
  have h := Do_structured_body_encoding quietEnv overrideCallback Context.Background
    (World.start 0) testPayload _ ⟨'h', by decide, by decide⟩ rfl marshal_testPayload rfl
  exact ⟨h.1, h.2.2.1, by decide⟩

end callback
